import Mathlib

/-!
Verification of the template engine of `Chatu.py` (the `Loader` / `Lexer` /
`Parser` / `BlockBuilder` / `Engine` subsystem, lines ~1570-1995).

Strings are modelled as `List Char`; positions into a Python string become
explicit list splits.  Each Python regular expression used by the `Parser`
is hand-translated into a deterministic character scanner; for every one of
them the greedy/lazy sub-patterns are separated by disjoint character
classes, so backtracking can never change the match and the deterministic
scan computes exactly the regex result (this is argued case by case in the
doc comment of each scanner).

The character classes `\s` and `\w` are modelled by their ASCII meaning；
all template sources in the claims are ASCII.
-/

namespace Chatu

abbrev Chars := List Char

/-- Python `\s` (ASCII): space, tab, newline, CR, vertical tab, form feed. -/
def isWs (c : Char) : Bool :=
  c = ' ' || c = '\t' || c = '\n' || c = '\r' || c = '\x0b' || c = '\x0c'

/-- Python `\w` (ASCII): letters, digits, underscore. -/
def isWordChar (c : Char) : Bool :=
  ('a' ≤ c && c ≤ 'z') || ('A' ≤ c && c ≤ 'Z') || ('0' ≤ c && c ≤ '9') || c = '_'

/-- Python `str.strip()` of trailing whitespace. -/
def rstripWs (s : Chars) : Chars :=
  (s.reverse.dropWhile isWs).reverse

/-- Python `str.strip()` (both ends). -/
def stripWs (s : Chars) : Chars :=
  rstripWs (s.dropWhile isWs)

/-- `source.replace('\r\n', '\n')` (first line of `Lexer.tokenize`);
left-to-right non-overlapping, like Python `str.replace`. -/
def crlfNorm : Chars → Chars
  | [] => []
  | [c] => [c]
  | c :: d :: r =>
      if c = '\r' ∧ d = '\n' then '\n' :: crlfNorm r
      else c :: crlfNorm (d :: r)

/-- `line_join_sub('', s)`: delete every occurrence of `\` followed by a
newline (regex `\\\n`), left-to-right. -/
def lineJoinSub : Chars → Chars
  | [] => []
  | [c] => [c]
  | c :: d :: r =>
      if c = '\\' ∧ d = '\n' then lineJoinSub r
      else c :: lineJoinSub (d :: r)

mutual
/-- The substitution `_s` inside `mtok`: regex `(\n *%)%` replaced by group 1,
i.e. a doubled statement leader right after a line start is unescaped.
`subEsc` scans for a newline … -/
def subEsc : Chars → Chars
  | [] => []
  | c :: r => if c = '\n' then '\n' :: subEscNl r else c :: subEsc r

/-- … and `subEscNl` walks the run of spaces after it; on `%%` the first `%`
is kept and scanning resumes after the second (non-overlapping, as
`re.sub`); a new newline re-enters the after-newline state. -/
def subEscNl : Chars → Chars
  | [] => []
  | [c] => [c]
  | c :: d :: r =>
      if c = ' ' then ' ' :: subEscNl (d :: r)
      else if c = '\n' then '\n' :: subEscNl (d :: r)
      else if c = '%' ∧ d = '%' then '%' :: subEsc r
      else c :: subEsc (d :: r)
end

/-- Token kinds: the strings used by `TOKENS` / `Parser` / `parse_iter`
(`'#'` is `comment`, `'end'` is `endk`, `'extends'` is `ext`, `'def'` is
`defk`, `'out'` is `outk`, `'render'` is `render`). -/
inductive TKind where
  | markup | var | inc | req | imp | frm | stmt
  | compound | cont | endk | comment | ext | defk | outk | render
deriving DecidableEq, Repr

/-- Token values: a string, a list of names (for `require`), or `None`
(the value of the `end` injected by `end_continue`). -/
inductive TokVal where
  | s (v : Chars)
  | ks (v : List Chars)
  | null
deriving DecidableEq, Repr

/-- A lexer token `(lineno, token, value)`. -/
structure Token where
  line : Nat
  kind : TKind
  val  : TokVal
deriving DecidableEq, Repr

/-- The `TOKENS` dict of the source. -/
def TOKENS : List (String × TKind) :=
  [("endfor", .endk), ("endif", .endk), ("endwhile", .endk), ("endwith", .endk),
   ("endtry", .endk), ("endclass", .endk), ("enddef", .endk),
   ("for", .compound), ("if", .compound), ("while", .compound),
   ("with", .compound), ("try", .compound), ("class", .compound),
   ("else", .cont), ("elif", .cont), ("except", .cont), ("finally", .cont),
   ("extends", .ext), ("require", .req), ("#", .comment), ("include", .inc),
   ("import", .imp), ("from", .frm), ("def", .defk), ("end", .endk)]

/-- `TOKENS.get(token.rstrip(), 'statement')`. -/
def kwKind (w : Chars) : TKind :=
  match TOKENS.find? (fun p => p.1.toList == w) with
  | some p => p.2
  | none => .stmt

/-- Python exceptions (and fuel exhaustion of the model, which never occurs
on the inputs of the theorems below). -/
inductive PyErr where
  | lexMismatch              -- SyntaxError('Lexer pattern mismatch.')
  | assertFail               -- a failed `assert` (AssertionError)
  | missingEnd (line : Nat)  -- SyntaxError('Missing "end" statement at line %d.')
  | attrError                -- None.group(1) when include/extends have no (...)
  | keyError                 -- KeyError
  | nameError                -- NameError (unbound name in generated code)
  | notFound                 -- the Loader finds no template of that name
  | pySynErr                 -- generated source is not valid Python
  | valueErr                 -- ValueError (str.index miss in build_def)
  | indexErr                 -- IndexError (nodes[0] of an empty def body)
  | typeErr                  -- TypeError
  | unsupported              -- Python behaviour outside the modelled fragment
  | fuel                     -- out of fuel (model artefact only)
deriving DecidableEq, Repr

/-- Result of one tokenizer rule: a match consuming `k` characters, no
match, or a Python exception escaping the rule. -/
inductive RuleRes where
  | tok (k : Nat) (kind : TKind) (val : TokVal)
  | fail
  | perr (e : PyErr)
deriving Repr

/-- The tail `(.*?)(?<!\\)(?:\n|$)` of the statement regex: the lazy star
finds the first position that is the end of input or holds a newline and
whose preceding character is not the line-join `\`; on failure there the
star consumes the newline and goes on.  Greedy parts before the star only
ever consume spaces, `#`, or word characters — none of which is a newline
— so no backtracking into them can create an end position, and the scan is
exact.  Returns `(group2, newline-consumed?, rest)`. -/
def stmtTail (prevc : Char) : Chars → Option (Chars × Bool × Chars)
  | [] => if prevc = '\\' then none else some ([], false, [])
  | c :: r =>
      if c = '\n' then
        if prevc = '\\' then (stmtTail '\n' r).map (fun p => ('\n' :: p.1, p.2.1, p.2.2))
        else some ([], true, r)
      else (stmtTail c r).map (fun p => (c :: p.1, p.2.1, p.2.2))

/-- `re.search(r'\(\s*(.*?)\s*\)', stmt)`: the match starts at the first
`(` (if any later `)` exists, which holds for the first `(` iff it holds
for any), the group is the text up to the first following `)` with
whitespace trimmed on both sides. -/
def parenExtract (s : Chars) : Option Chars :=
  match s.dropWhile (· ≠ '(') with
  | '(' :: r =>
      if r.dropWhile (· ≠ ')') = [] then none
      else some (stripWs (r.takeWhile (· ≠ ')')))
  | _ => none

/-- `re.findall(r'([^\s,]+)[\s,]*', stmt)`: the maximal runs of
non-whitespace non-comma characters, in order. `acc` is the current run,
reversed. -/
def findallAux (acc : Chars) : Chars → List Chars
  | [] => if acc = [] then [] else [acc.reverse]
  | c :: r =>
      if isWs c || c = ',' then
        if acc = [] then findallAux [] r else acc.reverse :: findallAux [] r
      else findallAux (c :: acc) r

def findallIdents (s : Chars) : List Chars :=
  findallAux [] s

/-- `stmt_token`: the rule built from
`' *%(?!%) *(#|\w+ ?)? *(.*?)(?<!\\)(?:\n|$)'` with the guard that the
match must sit at a line start (`pos = 0` or a newline before it; the
model feeds the previous character, `'\n'` at position 0).  All greedy
pieces are delimited by disjoint character classes (spaces / `%` / `#` or
word chars / spaces), hence deterministic; see `stmtTail` for the tail.
For `require`/`include`/`extends` the parenthesised argument is extracted,
and a missing argument raises (AttributeError on `None.group`). -/
def stmtTok (prev : Char) (s : Chars) : RuleRes :=
  if prev ≠ '\n' then .fail
  else
    let sp1 := s.takeWhile (· = ' ')
    match s.dropWhile (· = ' ') with
    | [] => .fail
    | c :: t =>
        if c ≠ '%' then .fail
        else if t.head? = some '%' then .fail
        else
          let sp2 := t.takeWhile (· = ' ')
          let t2 := t.dropWhile (· = ' ')
          let g1t3 : Chars × Chars :=
            if t2.head? = some '#' then (['#'], t2.tail)
            else
              let w := t2.takeWhile isWordChar
              if w = [] then ([], t2)
              else
                let r := t2.dropWhile isWordChar
                if r.head? = some ' ' then (w ++ [' '], r.tail)
                else (w, r)
          let g1 := g1t3.1
          let t3 := g1t3.2
          let sp3 := t3.takeWhile (· = ' ')
          let t4 := t3.dropWhile (· = ' ')
          -- the character before group 2 is a space, `%`, `#` or a word
          -- character — never `\` — so the initial look-behind succeeds
          let pv := ((sp2 ++ g1 ++ sp3).getLastD '%')
          match stmtTail pv t4 with
          | none => .fail
          | some (g2, nl, _) =>
              let k := sp1.length + 1 + sp2.length + g1.length + sp3.length
                         + g2.length + (if nl then 1 else 0)
              let stmtv := g1 ++ lineJoinSub g2
              let kind := kwKind (rstripWs g1)
              if kind = .req ∨ kind = .inc ∨ kind = .ext then
                match parenExtract stmtv with
                | none => .perr .attrError
                | some inner =>
                    if kind = .req then .tok k kind (.ks (findallIdents inner))
                    else .tok k kind (.s inner)
              else .tok k kind (.s stmtv)

/-- First occurrence of the two-character pair `a b`; returns the part
before it and the part after it. -/
def splitAtPair (a b : Char) : Chars → Option (Chars × Chars)
  | [] => none
  | [_] => none
  | c :: d :: r =>
      if c = a ∧ d = b then some ([], r)
      else
        match splitAtPair a b (d :: r) with
        | some (pre, post) => some (c :: pre, post)
        | none => none

/-- Is the pair `a b` present as a substring? -/
def hasPair (a b : Char) (s : Chars) : Bool :=
  (splitAtPair a b s).isSome

/-- `var_token`, from `\{\{\s*(.*?)\s*\}\}` (DOTALL): after `{{` the
greedy `\s*` takes the maximal whitespace run (it cannot cross a `}`),
then the lazy group ends at the first following `}}`, minus the trimmed
whitespace; the value gets `line_join_sub` applied. -/
def varTok (s : Chars) : RuleRes :=
  match s with
  | a :: b :: r =>
      if a = '{' ∧ b = '{' then
        let w := r.takeWhile isWs
        let r2 := r.dropWhile isWs
        match splitAtPair '}' '}' r2 with
        | none => .fail
        | some (body, _) =>
            .tok (2 + w.length + body.length + 2) .var (.s (lineJoinSub (rstripWs body)))
      else .fail
  | _ => .fail

/-- The lookahead ` *%[^%]` after a newline in the markup rule: spaces,
then `%`, then a character other than `%` (which must exist). -/
def stmtAheadOk (t : Chars) : Bool :=
  match t.dropWhile (· = ' ') with
  | c :: d :: _ => c == '%' && d != '%'
  | _ => false

/-- First branch of the markup regex
`.*?(?:(?=\{\{)|\n(?= *%[^%]))` (DOTALL): the lazy star stops at the
first position that begins `{{` (consuming nothing more) or holds a
newline whose next line looks like a statement (consuming the newline).
Returns the consumed prefix, or `none` if no such position exists. -/
def markupScan : Chars → Option Chars
  | [] => none
  | c :: r =>
      if c = '{' ∧ r.head? = some '{' then some []
      else if c = '\n' then
        if stmtAheadOk r then some ['\n']
        else (markupScan r).map ('\n' :: ·)
      else (markupScan r).map (c :: ·)

/-- `mtok`: the markup rule.  If the first branch fails, `.+` consumes the
whole rest (which must be nonempty).  The value is the matched text with
the previous character (a newline at position 0) prepended, the `%%`
unescape `_s` applied, the first character dropped again, and line joins
removed. -/
def mtok (prev : Char) (s : Chars) : RuleRes :=
  let g? : Option Chars :=
    match markupScan s with
    | some g => some g
    | none => if s = [] then none else some s
  match g? with
  | none => .fail
  | some g => .tok g.length .markup (.s (lineJoinSub ((subEsc (prev :: g)).drop 1)))

/-- One tokenizer rule: previous character and remaining input. -/
abbrev Rule := Char → Chars → RuleRes

/-- Try the rules in order; the for-else of `tokenize` raises
`SyntaxError('Lexer pattern mismatch.')` when none matches, rendered here
as `.fail` bubbling out of the list. -/
def firstRule : List Rule → Char → Chars → RuleRes
  | [], _, _ => .fail
  | r :: rs, prev, s =>
      match r prev s with
      | .fail => firstRule rs prev s
      | res => res

/-- `Lexer.tokenize`'s loop: repeatedly apply the first matching rule,
record `(lineno, token, value)`, advance `lineno` by the newlines
consumed, and move past the consumed text.  `assert npos > pos` is the
`.assertFail` branch.  Fuel only bounds the recursion; `s.length + 1` is
always enough since every step consumes at least one character. -/
def tokenizeLoop (rules : List Rule) : Nat → Nat → Char → Chars → Except PyErr (List Token)
  | 0, _, _, _ => .error .fuel
  | fuel + 1, line, prev, s =>
      if s = [] then .ok []
      else
        match firstRule rules prev s with
        | .fail => .error .lexMismatch
        | .perr e => .error e
        | .tok k kind v =>
            if k = 0 then .error .assertFail
            else
              match tokenizeLoop rules fuel (line + (s.take k).count '\n')
                      ((s.take k).getLastD prev) (s.drop k) with
              | .ok ts => .ok (⟨line, kind, v⟩ :: ts)
              | .error e => .error e

/-- The `Parser`'s rule list: statement, variable, markup (in priority
order); `var_token` ignores the previous character. -/
def parserRules : List Rule :=
  [stmtTok, fun _ s => varTok s, mtok]

/-- `Parser.tokenize` (inherited from `Lexer`, with the parser's rules):
normalize CRLF, then run the loop from line 1 (position 0 behaves as if
preceded by a newline). -/
def tokenize (src : Chars) : Except PyErr (List Token) :=
  let s := crlfNorm src
  tokenizeLoop parserRules (s.length + 1) 1 '\n' s

/-- `Parser.end_continue`: a `continue` token (`else`/`elif`/…) becomes an
injected `end` (value `None`) followed by the same token reclassified as
`compound`. -/
def endContinue : List Token → List Token
  | [] => []
  | t :: r =>
      if t.kind = .cont then
        ⟨t.line, .endk, .null⟩ :: ⟨t.line, .compound, t.val⟩ :: endContinue r
      else t :: endContinue r

mutual
/-- A parse node `(lineno, token, value)` as yielded by `parse_iter`. -/
inductive Node where
  | mk (line : Nat) (kind : TKind) (val : NVal)

/-- Node values: the token value, an `out` group of consecutive
markup/var/include tokens, or — for `compound`/`def`/`extends` — the pair
of the header text and the grouped body. -/
inductive NVal where
  | s (v : Chars)
  | ks (v : List Chars)
  | null
  | out (ts : List Token)
  | blk (header : Chars) (children : List Node)
end

def Node.line : Node → Nat
  | .mk l _ _ => l

def Node.kind : Node → TKind
  | .mk _ k _ => k

def Node.val : Node → NVal
  | .mk _ _ v => v

/-- Token value reused as a node value. -/
def NVal.ofTok : TokVal → NVal
  | .s v => .s v
  | .ks v => .ks v
  | .null => .null

/-- `if operands: yield operands[0][0], 'out', operands` — flush the
pending out-group (node accumulator is kept reversed). -/
def pushOut (ops : List Token) (acc : List Node) : List Node :=
  match ops with
  | [] => acc
  | t :: _ => .mk t.line .outk (.out ops) :: acc

/-- `OUT_TOKENS` membership. -/
def isOutTok (k : TKind) : Bool :=
  k = .markup || k = .var || k = .inc

/-- `COMPOUND_TOKENS` membership. -/
def isCompoundTok (k : TKind) : Bool :=
  k = .ext || k = .defk || k = .compound

/-- `Parser.parse_iter`.  The Python version is a recursive generator
sharing one iterator with its recursive calls; here the remaining token
list is returned alongside the produced nodes.  A `compound`-class token
groups the rest recursively; unless it is `extends`, a nonempty body whose
last node is not `end` raises
`SyntaxError('Missing "end" statement at line %d.' % vals[-1][0])` — the
line of the LAST grouped node.  An `end` token is yielded and stops the
current level.  Fuel bounds recursion depth; every recursive call follows
the consumption of at least one token, so `tokens.length + 1` suffices. -/
def parseIterAux : Nat → List Token → List Token → List Node →
    Except PyErr (List Node × List Token)
  | 0, _, _, _ => .error .fuel
  | _ + 1, [], ops, acc => .ok ((pushOut ops acc).reverse, [])
  | fuel + 1, t :: rest, ops, acc =>
      if isOutTok t.kind then parseIterAux fuel rest (ops ++ [t]) acc
      else
        let acc2 := pushOut ops acc
        if isCompoundTok t.kind then
          match parseIterAux fuel rest [] [] with
          | .error e => .error e
          | .ok (vals, rest2) =>
              match vals.getLast? with
              | some lastn =>
                  if t.kind ≠ .ext ∧ lastn.kind ≠ .endk then
                    .error (.missingEnd lastn.line)
                  else
                    let hdr := match t.val with | .s v => v | _ => []
                    parseIterAux fuel rest2 [] (.mk t.line t.kind (.blk hdr vals) :: acc2)
              | none =>
                  let hdr := match t.val with | .s v => v | _ => []
                  parseIterAux fuel rest2 [] (.mk t.line t.kind (.blk hdr vals) :: acc2)
        else if t.kind = .endk then
          .ok ((Node.mk t.line .endk (.ofTok t.val) :: acc2).reverse, rest)
        else
          parseIterAux fuel rest [] (.mk t.line t.kind (.ofTok t.val) :: acc2)

def parseIter (ts : List Token) : Except PyErr (List Node × List Token) :=
  parseIterAux (ts.length + 1) ts [] []

/-- Tokenize, rewrite `continue` tokens, and group: the node list that
`Engine.load_and_parse` hands to the builder (evaluated strictly; in
Python the grouping error surfaces when the builder forces the
generator, still inside `compile_template`). -/
def parseSource (src : Chars) : Except PyErr (List Node) :=
  match tokenize src with
  | .error e => .error e
  | .ok ts =>
      match parseIter (endContinue ts) with
      | .error e => .error e
      | .ok (nodes, _) => .ok nodes

/-!
## Semantics of the generated render routines

`BlockBuilder` emits one Python routine
`render(ctx, local_defs, super_defs)` per template and `Engine` `exec`s
it.  The evaluator below gives, case by case, the run-time meaning of
exactly the code each `build_*` rule emits (each case cites its rule).
Python behaviour outside the fragment the builder's own output exercises
(raw `%`-statements, user-defined filters, defs with parameters, …) is an
explicit `.unsupported` error, never a guessed value.

Two timing differences to the Python original are noted where they occur:
build-time failures (bad generated syntax, `nodes[0]` of an empty def)
surface in Python while `compile_template` runs `compile()`, here on the
first render of the faulty node; both make the same composite call fail.

Mutable state visible across calls — the engine caches and the
`local_defs`/`super_defs` dicts, which every `_r` delegation passes along
unchanged — lives in `RSt` and is returned even when an exception is
propagated, like Python's shared objects surviving an unwinding frame.
-/

/-- Python values the generated code manipulates.  A `%def` compiles to a
closure: its body nodes, the enclosing frame it closes over, and the
`default_filters` its template was built with. -/
inductive Val where
  | vstr (s : Chars)
  | vint (n : Int)
  | vlist (l : List Val)
  | vfun (body : List Node) (env : List (Chars × Val)) (dflt : List Chars)
  | vnone

abbrev Env := List (Chars × Val)
abbrev Ctx := List (Chars × Val)

/-- Association-list lookup, first match (later insertions shadow). -/
def alookup {α : Type} (m : List (Chars × α)) (k : Chars) : Option α :=
  (m.find? (fun p => p.1 == k)).map (·.2)

/-- A compiled template: its parse nodes plus the `default_filters` the
builder was configured with (the data `compile_template` bakes into the
routine). -/
structure Tpl where
  nodes : List Node
  filters : List Chars

/-- The `Engine`'s mutable data: the loader's template dict, the
`templates`/`renders` caches (always inserted and removed together for a
non-null name, hence one map), and `default_filters`. -/
structure Eng where
  loader : List (Chars × Chars)
  renders : List (Chars × Tpl)
  dfilters : List Chars

/-- The state threaded through a render call chain: engine caches plus
the two def tables, which `_r` passes to parent/included templates as the
same mutable dicts. -/
structure RSt where
  eng : Eng
  ld : Env
  sd : Env

/-- `Engine.compile_template(name, source=?)`: cached name short-circuits;
otherwise `Loader.load` (direct source, or the loader dict, `NotFoundError`
on a miss — the file system is not modelled), tokenize and group, and only
on success insert under a non-null name. -/
def engCompile (eng : Eng) (name? : Option Chars) (src? : Option Chars) :
    Eng × Except PyErr Tpl :=
  let cached := match name? with
    | some n => alookup eng.renders n
    | none => none
  match cached with
  | some t => (eng, .ok t)
  | none =>
      let loaded : Except PyErr Chars :=
        match src? with
        | some s => .ok s
        | none =>
            match name? with
            | some n =>
                match alookup eng.loader n with
                | some s => .ok s
                | none => .error .notFound
            | none => .error .typeErr
      match loaded with
      | .error e => (eng, .error e)
      | .ok s =>
          match parseSource s with
          | .error e => (eng, .error e)
          | .ok nodes =>
              let t : Tpl := ⟨nodes, eng.dfilters⟩
              match name? with
              | some n => ({ eng with renders := (n, t) :: eng.renders }, .ok t)
              | none => (eng, .ok t)

/-- `BlockBuilder.filters = {'e': 'escape'}`, via `.get(f, f)`. -/
def builderFilters (f : Chars) : Chars :=
  if f = "e".toList then "escape".toList else f

/-- Python `value.split('|')` for a one-character separator. -/
def splitPipe : Chars → List Chars
  | [] => [[]]
  | c :: r =>
      if c = '|' then [] :: splitPipe r
      else
        match splitPipe r with
        | h :: t => (c :: h) :: t
        | [] => [[c]]

/-- The filter-chain analysis of `build_out` for a `var` token: split on
`|`, strip each part, pop the head as the expression; a trailing `n`
filter is dropped and suppresses `default_filters`, which are otherwise
appended.  Returns the expression and the filter names to apply, in
application order. -/
def varFilterChain (value : Chars) (defaults : List Chars) : Chars × List Chars :=
  match (splitPipe value).map stripWs with
  | [] => ([], [])
  | v :: fs =>
      if fs ≠ [] ∧ fs.getLast? = some ['n'] then (v, fs.dropLast)
      else (v, fs ++ defaults)

/-- The code text `build_out` generates for a `var` token: each filter
name (through the builder's `{'e': 'escape'}` table) wraps the expression
in a call, innermost first. -/
def buildVarCode (value : Chars) (defaults : List Chars) : Chars :=
  let vf := varFilterChain value defaults
  vf.2.foldl (fun acc f => builderFilters f ++ '(' :: (acc ++ [')'])) vf.1

/-- `str` of the modelled values (`Engine.global_vars` maps `str` to
Python's `str`). -/
def pyStr : Val → Except PyErr Chars
  | .vstr s => .ok s
  | .vint n => .ok (toString n).toList
  | .vnone => .ok "None".toList
  | _ => .error .unsupported

/-- `escape_html`: `&`, `<`, `>`, `"`, `'` replaced in this order; since
no replacement text contains a character replaced later, the sequential
`str.replace` chain equals this single pass. -/
def escChar (c : Char) : Chars :=
  if c = '&' then "&amp;".toList
  else if c = '<' then "&lt;".toList
  else if c = '>' then "&gt;".toList
  else if c = '"' then "&quot;".toList
  else if c = '\'' then "&#x27;".toList
  else [c]

def escapeHtml (s : Chars) : Chars :=
  (s.map escChar).flatten

/-- Apply one filter by name, as the generated `name(value)` call resolves
against `Engine.global_vars` (`str` → `unicode`, `escape` → `escape_html`,
which `str`s a non-string argument first).  Any other filter name is
outside the modelled fragment. -/
def applyFilterName (f : Chars) (v : Val) : Except PyErr Val :=
  let g := builderFilters f
  if g = "str".toList then (pyStr v).map .vstr
  else if g = "escape".toList then (pyStr v).map (fun s => .vstr (escapeHtml s))
  else .error .unsupported

def applyFilters : List Chars → Val → Except PyErr Val
  | [], v => .ok v
  | f :: fs, v =>
      match applyFilterName f v with
      | .ok v1 => applyFilters fs v1
      | .error e => .error e

/-- Names that the generated routine has in scope from its parameters or
globals (`ctx`, the def tables, the writer, `_r`/`_i`, the global filter
functions); evaluating them as values is outside the fragment. -/
def isReserved (nm : Chars) : Bool :=
  nm == "ctx".toList || nm == "local_defs".toList || nm == "super_defs".toList ||
  nm == "w".toList || nm == "_b".toList || nm == "_r".toList || nm == "_i".toList ||
  nm == "str".toList || nm == "escape".toList

/-- A Python string literal with no escapes and no embedded quote. -/
def strLit (q : Char) (r : Chars) : Except PyErr Val :=
  match r.getLast? with
  | some c =>
      if c = q ∧ r.dropLast.contains q = false then .ok (.vstr r.dropLast)
      else .error .unsupported
  | none => .error .unsupported

/-- `build_require`: for each name not yet in the builder's `local_vars`
the code `name = ctx['name']` is emitted (KeyError on a missing key), and
all names join `local_vars`. -/
def bindRequireAux (ctx : Ctx) (lvars : List Chars) : Env → List Chars → Except PyErr Env
  | env, [] => .ok env
  | env, k :: ks =>
      if lvars.contains k then bindRequireAux ctx lvars env ks
      else
        match alookup ctx k with
        | some v => bindRequireAux ctx lvars ((k, v) :: env) ks
        | none => .error .keyError

def bindRequire (ctx : Ctx) (env : Env) (lvars : List Chars) (keys : List Chars) :
    Except PyErr (Env × List Chars) :=
  (bindRequireAux ctx lvars env keys).map (fun env1 => (env1, lvars ++ keys))

/-- Recognize the compound header `for <ident> in <expr>:` — the only
compound statement the modelled fragment executes.  Returns the loop
variable and the iterated expression. -/
def matchFor (hdr : Chars) : Option (Chars × Chars) :=
  match hdr with
  | 'f' :: 'o' :: 'r' :: ' ' :: r =>
      let r1 := r.dropWhile (· = ' ')
      let x := r1.takeWhile isWordChar
      if x = [] then none
      else
        match (r1.dropWhile isWordChar).dropWhile (· = ' ') with
        | 'i' :: 'n' :: ' ' :: r4 =>
            if r4.getLast? = some ':' then
              let ex := stripWs r4.dropLast
              if ex = [] then none else some (x, ex)
            else none
        | _ => none
  | _ => none

/-- `build_def`'s name extraction `stmt[4:stmt.index('(', 5)]`
(`ValueError` when no `(` occurs from position 5 on). -/
def defNameOf (stmt : Chars) : Option Chars :=
  match stmt.drop 4 with
  | [] => none
  | c :: r =>
      if r.dropWhile (· ≠ '(') = [] then none
      else some (c :: r.takeWhile (· ≠ '('))

mutual
/-- Evaluate a Python expression of the fragment the builder's output
contains: a string literal (`%extends("name")`), a bare name (resolved in
the routine's frame; `NameError` if absent), or a no-argument call of a
`%def` closure. -/
def evalExpr : Nat → RSt → Ctx → Env → Chars → RSt × Except PyErr Val
  | 0, st, _, _, _ => (st, .error .fuel)
  | fuel + 1, st, ctx, env, e =>
      match e with
      | '"' :: r => (st, strLit '"' r)
      | '\'' :: r => (st, strLit '\'' r)
      | _ =>
          let nm := e.takeWhile isWordChar
          if nm = [] then (st, .error .unsupported)
          else
            match e.drop nm.length with
            | [] =>
                match alookup env nm with
                | some v => (st, .ok v)
                | none => (st, .error (if isReserved nm then .unsupported else .nameError))
            | ['(', ')'] =>
                match alookup env nm with
                | some (.vfun body cenv cdflt) =>
                    let r := callClosure fuel st ctx body cenv cdflt
                    (r.1, r.2.map .vstr)
                | some _ => (st, .error .typeErr)
                | none => (st, .error (if isReserved nm then .unsupported else .nameError))
            | _ => (st, .error .unsupported)

/-- Invoke a `%def` closure.  `build_def` compiles a body whose first
child is itself a compound into `raise SyntaxError(...)`; otherwise the
body is the writer idiom around the children (the single-markup
shortcut returns the same string). -/
def callClosure : Nat → RSt → Ctx → List Node → Env → List Chars → RSt × Except PyErr Chars
  | 0, st, _, _, _, _ => (st, .error .fuel)
  | fuel + 1, st, ctx, body, cenv, cdflt =>
      match body.head? with
      | none => (st, .error .indexErr)
      | some c0 =>
          if isCompoundTok c0.kind then (st, .error .pySynErr)
          else
            let r := execNodes fuel st ctx cdflt cenv [] [] body
            (r.1, r.2.map (·.1))

/-- `build_out`: markup is written literally (empty markup emits no
code), a `var` token evaluates its expression and applies the filter
chain (the written value must be a string for `"".join`), and `include`
compiles to `_r(name, ctx, local_defs, super_defs)` whose output is
written. -/
def execOut : Nat → RSt → Ctx → List Chars → Env → Chars → List Token → RSt × Except PyErr Chars
  | 0, st, _, _, _, _, _ => (st, .error .fuel)
  | _ + 1, st, _, _, _, buf, [] => (st, .ok buf)
  | fuel + 1, st, ctx, dflt, env, buf, t :: rest =>
      match t.kind, t.val with
      | .markup, .s v => execOut fuel st ctx dflt env (buf ++ v) rest
      | .var, .s v =>
          let vf := varFilterChain v dflt
          let r := evalExpr fuel st ctx env vf.1
          match r.2 with
          | .error e => (r.1, .error e)
          | .ok v0 =>
              match applyFilters vf.2 v0 with
              | .error e => (r.1, .error e)
              | .ok (.vstr sres) => execOut fuel r.1 ctx dflt env (buf ++ sres) rest
              | .ok _ => (r.1, .error .typeErr)
      | .inc, .s v =>
          let r := evalExpr fuel st ctx env v
          match r.2 with
          | .error e => (r.1, .error e)
          | .ok (.vstr nm) =>
              let r2 := engRender fuel r.1 ctx nm
              match r2.2 with
              | .error e => (r2.1, .error e)
              | .ok out => execOut fuel r2.1 ctx dflt env (buf ++ out) rest
          | .ok _ => (r.1, .error .unsupported)
      | _, _ => (st, .error .unsupported)

/-- `build_block` over a node sequence, threading the frame (`env`), the
builder's `local_vars` (`lvars`), and the output buffer.  Each case is one
builder rule; `extends` outside `build_render` has no rule and is the
builder's `assert` failing. -/
def execNodes : Nat → RSt → Ctx → List Chars → Env → List Chars → Chars → List Node →
    RSt × Except PyErr (Chars × Env × List Chars)
  | 0, st, _, _, _, _, _, _ => (st, .error .fuel)
  | _ + 1, st, _, _, env, lvars, buf, [] => (st, .ok (buf, env, lvars))
  | fuel + 1, st, ctx, dflt, env, lvars, buf, n :: rest =>
      match n with
      | .mk _ .outk (.out ts) =>
          let r := execOut fuel st ctx dflt env buf ts
          match r.2 with
          | .error e => (r.1, .error e)
          | .ok buf1 => execNodes fuel r.1 ctx dflt env lvars buf1 rest
      | .mk _ .req (.ks keys) =>
          match bindRequire ctx env lvars keys with
          | .error e => (st, .error e)
          | .ok (env1, lv1) => execNodes fuel st ctx dflt env1 lv1 buf rest
      | .mk _ .compound (.blk hdr children) =>
          match matchFor hdr with
          | some (x, ex) =>
              let r := evalExpr fuel st ctx env ex
              match r.2 with
              | .error e => (r.1, .error e)
              | .ok (.vlist items) =>
                  let r2 := execFor fuel r.1 ctx dflt env lvars buf x children items
                  match r2.2 with
                  | .error e => (r2.1, .error e)
                  | .ok (buf2, env2, lv2) => execNodes fuel r2.1 ctx dflt env2 lv2 buf2 rest
              | .ok _ => (r.1, .error .typeErr)
          | none =>
              -- a header without the Python colon makes `compile()` raise
              -- SyntaxError (in Python during compile_template); other
              -- colon-terminated headers are outside the fragment
              (st, .error (if hdr.getLast? = some ':' then .unsupported else .pySynErr))
      | .mk _ .defk (.blk hdr children) =>
          match defNameOf hdr with
          | none => (st, .error .valueErr)
          | some nm =>
              if hdr ≠ "def ".toList ++ nm ++ "():".toList then (st, .error .unsupported)
              else
                match children.head? with
                | none => (st, .error .indexErr)
                | some c0 =>
                    let clo := Val.vfun children env dflt
                    if isCompoundTok c0.kind then
                      -- poisoned body and NO setdefs line after it
                      execNodes fuel st ctx dflt ((nm, clo) :: env) lvars buf rest
                    else
                      -- super_defs['N'] = N; N = local_defs.setdefault('N', N)
                      let st1 := { st with sd := (nm, clo) :: st.sd }
                      match alookup st1.ld nm with
                      | some v => execNodes fuel st1 ctx dflt ((nm, v) :: env) lvars buf rest
                      | none =>
                          let st2 := { st1 with ld := (nm, clo) :: st1.ld }
                          execNodes fuel st2 ctx dflt ((nm, clo) :: env) lvars buf rest
      | .mk _ .endk _ => execNodes fuel st ctx dflt env lvars buf rest
      | .mk _ .comment _ => execNodes fuel st ctx dflt env lvars buf rest
      | .mk _ .stmt (.s v) =>
          if v = [] then execNodes fuel st ctx dflt env lvars buf rest
          else (st, .error .unsupported)
      | .mk _ .ext _ => (st, .error .assertFail)
      | _ => (st, .error .unsupported)

/-- The emitted `for` loop: bind the loop variable, run the body, keep
the frame changes (Python loop variables persist). -/
def execFor : Nat → RSt → Ctx → List Chars → Env → List Chars → Chars → Chars →
    List Node → List Val → RSt × Except PyErr (Chars × Env × List Chars)
  | 0, st, _, _, _, _, _, _, _, _ => (st, .error .fuel)
  | _ + 1, st, _, _, env, lvars, buf, _, _, [] => (st, .ok (buf, env, lvars))
  | fuel + 1, st, ctx, dflt, env, lvars, buf, x, children, v :: vs =>
      let r := execNodes fuel st ctx dflt ((x, v) :: env) lvars buf children
      match r.2 with
      | .error e => (r.1, .error e)
      | .ok (buf1, env1, lv1) => execFor fuel r.1 ctx dflt env1 lv1 buf1 x children vs

/-- `build_render`: empty body returns `''`; fewer than three nodes
ending in `extends` build only the `def`/`require` nodes of the extends
body (anything before the extends node is dropped) and delegate via
`return _r(extends, ctx, local_defs, super_defs)`; a single out node
holding a single markup token returns the literal; otherwise the writer
idiom wraps the block. -/
def execRender : Nat → RSt → Ctx → List Chars → List Node → RSt × Except PyErr Chars
  | 0, st, _, _, _ => (st, .error .fuel)
  | fuel + 1, st, ctx, dflt, nodes =>
      match nodes with
      | [] => (st, .ok [])
      | _ =>
          if nodes.length < 3 ∧ nodes.getLast?.map Node.kind = some .ext then
            match nodes.getLast? with
            | some (.mk _ _ (.blk hdr children)) =>
                let keep := children.filter (fun n => n.kind = .defk ∨ n.kind = .req)
                let r := execNodes fuel st ctx dflt [] [] [] keep
                match r.2 with
                | .error e => (r.1, .error e)
                | .ok (_, env1, _) =>
                    let rv := evalExpr fuel r.1 ctx env1 hdr
                    match rv.2 with
                    | .error e => (rv.1, .error e)
                    | .ok (.vstr pname) => engRender fuel rv.1 ctx pname
                    | .ok _ => (rv.1, .error .unsupported)
            | _ => (st, .error .unsupported)
          else
            match nodes with
            | [.mk _ .outk (.out [⟨_, .markup, .s v⟩])] => (st, .ok v)
            | _ =>
                let r := execNodes fuel st ctx dflt [] [] [] nodes
                (r.1, r.2.map (·.1))

/-- `Engine.render(name, ctx, local_defs, super_defs)`: invoke the cached
routine; a `KeyError` — from the cache miss or from the routine itself —
is caught once, `compile_template(name)` runs (a no-op on a cache hit),
and the routine of `renders[name]` is invoked (again), this time outside
the `try`. -/
def engRender : Nat → RSt → Ctx → Chars → RSt × Except PyErr Chars
  | 0, st, _, _ => (st, .error .fuel)
  | fuel + 1, st, ctx, nm =>
      match alookup st.eng.renders nm with
      | some tpl =>
          let r := execRender fuel st ctx tpl.filters tpl.nodes
          match r.2 with
          | .ok s => (r.1, .ok s)
          | .error .keyError =>
              let c := engCompile r.1.eng (some nm) none
              match c.2 with
              | .error e => ({ r.1 with eng := c.1 }, .error e)
              | .ok tpl2 => execRender fuel { r.1 with eng := c.1 } ctx tpl2.filters tpl2.nodes
          | .error e => (r.1, .error e)
      | none =>
          let c := engCompile st.eng (some nm) none
          match c.2 with
          | .error e => ({ st with eng := c.1 }, .error e)
          | .ok tpl => execRender fuel { st with eng := c.1 } ctx tpl.filters tpl.nodes
end

/-- A fresh `Engine()` over a loader dict: `default_filters = ['str']`. -/
def mkEng (loader : List (Chars × Chars)) : Eng :=
  ⟨loader, [], ["str".toList]⟩

/-- `Engine.get_template(name)` with no override options. -/
def engGetTemplate (eng : Eng) (nm : Chars) : Eng × Except PyErr Tpl :=
  match alookup eng.renders nm with
  | some t => (eng, .ok t)
  | none => engCompile eng (some nm) none

/-- `Engine.remove(name)` (modules are not part of this model). -/
def engRemove (eng : Eng) (nm : Chars) : Eng :=
  if (alookup eng.renders nm).isSome then
    { eng with renders := eng.renders.filter (fun p => p.1 != nm) }
  else eng

/-- `" ".join(require)` (dict iteration order = insertion order). -/
def joinSpace : List Chars → Chars
  | [] => []
  | [k] => k
  | k :: k2 :: ks => k ++ ' ' :: joinSpace (k2 :: ks)

/-- The line the module-level `get_template` prepends for a require list. -/
def requirePrefix (keys : List Chars) : Chars :=
  "%require(".toList ++ joinSpace keys ++ ")\n".toList

def withReq (req : List Chars) (s : Chars) : Chars :=
  if req = [] then s else requirePrefix req ++ s

/-- `engine.get_template(name, source=source)`: keyword arguments force a
`remove` of a non-null name, the cache misses, and `compile_template`
runs with the source. -/
def getTemplateSrc (eng : Eng) (name? : Option Chars) (s : Chars) : Eng × Except PyErr Tpl :=
  let eng1 := match name? with
    | some nm => engRemove eng nm
    | none => eng
  engCompile eng1 name? (some s)

/-- The module-level `get_template(name, source, require)` (with the
default application's `debug = False`, so no cache clearing): a plain
name — no newline and no `{{` — is looked up as a name; otherwise the
name becomes the source, a require list prepends its `%require(...)`
line, and the engine compiles the source anonymously (or under the
explicitly passed name). -/
def getTemplateTop (eng : Eng) (name? src? : Option Chars) (req : List Chars) :
    Eng × Except PyErr Tpl :=
  match src? with
  | none =>
      match name? with
      | none => (eng, .error .typeErr)
      | some nm =>
          if nm.contains '\n' = false ∧ hasPair '{' '{' nm = false then
            engGetTemplate eng nm
          else getTemplateSrc eng none (withReq req nm)
  | some s => getTemplateSrc eng name? (withReq req s)

/-- `render_template(template_name, source, **context)`: get the template
(the context dict is passed as the require list!) and render it with the
context and fresh def tables (`Template.render`). -/
def renderTemplateTop (eng : Eng) (name? src? : Option Chars) (ctx : Ctx) (fuel : Nat) :
    Except PyErr Chars :=
  match getTemplateTop eng name? src? (ctx.map (·.1)) with
  | (_, .error e) => .error e
  | (eng1, .ok tpl) => (execRender fuel ⟨eng1, [], []⟩ ctx tpl.filters tpl.nodes).2

/-- Compile a source anonymously and render it with fresh def tables
(`get_template(source=src).render(ctx)`). -/
def renderSrc (eng : Eng) (src : Chars) (ctx : Ctx) (fuel : Nat) : Except PyErr Chars :=
  match engCompile eng none (some src) with
  | (_, .error e) => .error e
  | (eng1, .ok tpl) => (execRender fuel ⟨eng1, [], []⟩ ctx tpl.filters tpl.nodes).2

/-!
## The Engine's cache discipline, abstractly

For the claims about caching and error propagation the build pipeline's
contents are irrelevant; what matters is the order of stage execution and
cache mutation in `compile_template` / `compile_import` / `get_template` /
`remove` / `render`.  The model below keeps the three caches
(`templates`, `renders`, `modules`) and takes the five pipeline stages —
load, tokenize, group, generate code, compile the generated source — and
the final `exec` as opaque (deterministic) functions.  Object identity of
a cached `Template` is modelled by a stamp: the value of a build counter
incremented once per completed build, so "no recompilation" is "the
counter did not move".  `aRender` additionally reports how many times a
compiled routine was invoked, making the `except KeyError` retry of
`Engine.render` observable. -/

/-- A cached template: its stamp (object identity) and render routine. -/
abbrev ATpl (C O : Type) := Nat × (C → Except PyErr O)

structure AEng (C O : Type) where
  templates : List (String × ATpl C O)
  renders : List (String × ATpl C O)
  modules : List (String × Nat)
  counter : Nat

/-- String-keyed association lookup. -/
def slookup {α : Type} (m : List (String × α)) (k : String) : Option α :=
  (m.find? (fun p => p.1 == k)).map (·.2)

def serase {α : Type} (m : List (String × α)) (k : String) : List (String × α) :=
  m.filter (fun p => p.1 != k)

/-- The five stages of `load_and_parse` + `BlockBuilder` + `compile_code`
run in sequence, any failure short-circuiting. -/
def aStage5 {A B G D E5 : Type} (load : Option String → Except PyErr A)
    (tokz : A → Except PyErr B) (grp : B → Except PyErr G)
    (cgen : G → Except PyErr D) (pcmp : D → Except PyErr E5)
    (name? : Option String) : Except PyErr E5 := do
  let a ← load name?
  let b ← tokz a
  let g ← grp b
  let d ← cgen g
  pcmp d

/-- `Engine.compile_template`: return the cached template of a non-null
name; otherwise run all stages and `exec` the code, and only after that
full build insert (paired) into `templates` and `renders` when the name
is non-null. -/
def aCompileTpl {A B G D E5 C O : Type} (load : Option String → Except PyErr A)
    (tokz : A → Except PyErr B) (grp : B → Except PyErr G)
    (cgen : G → Except PyErr D) (pcmp : D → Except PyErr E5)
    (pexe : E5 → Except PyErr (C → Except PyErr O))
    (eng : AEng C O) (name? : Option String) : AEng C O × Except PyErr (ATpl C O) :=
  match (match name? with
         | some n => slookup eng.templates n
         | none => none) with
  | some t => (eng, .ok t)
  | none =>
      match aStage5 load tokz grp cgen pcmp name? with
      | .error e => (eng, .error e)
      | .ok code =>
          match pexe code with
          | .error e => (eng, .error e)
          | .ok r =>
              let t : ATpl C O := (eng.counter, r)
              match name? with
              | some n =>
                  ({ eng with templates := (n, t) :: eng.templates,
                              renders := (n, t) :: eng.renders,
                              counter := eng.counter + 1 }, .ok t)
              | none => ({ eng with counter := eng.counter + 1 }, .ok t)

/-- `Engine.compile_import`: a cached module returns at once; otherwise
the five stages run, and then — BEFORE the generated module code is
executed — the new module is inserted into `modules`; a failing `exec`
leaves the partially initialized module cached. -/
def aCompileImp {A B G D E5 C O : Type} (load : Option String → Except PyErr A)
    (tokz : A → Except PyErr B) (grp : B → Except PyErr G)
    (cgen : G → Except PyErr D) (pcmp : D → Except PyErr E5)
    (mexe : E5 → Except PyErr Unit)
    (eng : AEng C O) (n : String) : AEng C O × Except PyErr Unit :=
  if (slookup eng.modules n).isSome then (eng, .ok ())
  else
    match aStage5 load tokz grp cgen pcmp (some n) with
    | .error e => (eng, .error e)
    | .ok code =>
        let eng1 : AEng C O :=
          { eng with modules := (n, eng.counter) :: eng.modules, counter := eng.counter + 1 }
        match mexe code with
        | .error e => (eng1, .error e)
        | .ok _ => (eng1, .ok ())

/-- `Engine.get_template(name)` with no override options: the `templates`
cache, else `compile_template`. -/
def aGetTpl {A B G D E5 C O : Type} (load : Option String → Except PyErr A)
    (tokz : A → Except PyErr B) (grp : B → Except PyErr G)
    (cgen : G → Except PyErr D) (pcmp : D → Except PyErr E5)
    (pexe : E5 → Except PyErr (C → Except PyErr O))
    (eng : AEng C O) (name? : Option String) : AEng C O × Except PyErr (ATpl C O) :=
  match name? with
  | some n =>
      match slookup eng.templates n with
      | some t => (eng, .ok t)
      | none => aCompileTpl load tokz grp cgen pcmp pexe eng name?
  | none => aCompileTpl load tokz grp cgen pcmp pexe eng none

/-- `Engine.remove(name)`: if the name is in `renders`, delete it from
`templates` (a KeyError if it is unexpectedly absent there) and
`renders`; independently delete it from `modules` if present
(delete-if-present is the same map as filtering the key out). -/
def aRemove {C O : Type} (eng : AEng C O) (n : String) : AEng C O × Except PyErr Unit :=
  if (slookup eng.renders n).isSome then
    if (slookup eng.templates n).isSome then
      ({ templates := serase eng.templates n, renders := serase eng.renders n,
         modules := serase eng.modules n, counter := eng.counter }, .ok ())
    else (eng, .error .keyError)
  else ({ eng with modules := serase eng.modules n }, .ok ())

/-- `Engine.render(name, ctx, local_defs, super_defs)`:
```
try:
    return self.renders[name](ctx, local_defs, super_defs)
except KeyError:
    self.compile_template(name)
return self.renders[name](ctx, local_defs, super_defs)
```
A `KeyError` — whether the cache miss or one raised by the routine — is
caught, `compile_template` runs (a cache hit when the template exists),
and the routine is invoked again outside the `try`.  The third component
counts the invocations of a render routine. -/
def aRender {A B G D E5 C O : Type} (load : Option String → Except PyErr A)
    (tokz : A → Except PyErr B) (grp : B → Except PyErr G)
    (cgen : G → Except PyErr D) (pcmp : D → Except PyErr E5)
    (pexe : E5 → Except PyErr (C → Except PyErr O))
    (eng : AEng C O) (n : String) (c : C) : AEng C O × Except PyErr O × Nat :=
  match slookup eng.renders n with
  | some t =>
      match t.2 c with
      | .ok o => (eng, .ok o, 1)
      | .error e =>
          if e = .keyError then
            let p := aCompileTpl load tokz grp cgen pcmp pexe eng (some n)
            match p.2 with
            | .error e2 => (p.1, .error e2, 1)
            | .ok _ =>
                match slookup p.1.renders n with
                | some t2 => (p.1, t2.2 c, 2)
                | none => (p.1, .error .keyError, 1)
          else (eng, .error e, 1)
  | none =>
      let p := aCompileTpl load tokz grp cgen pcmp pexe eng (some n)
      match p.2 with
      | .error e => (p.1, .error e, 0)
      | .ok _ =>
          match slookup p.1.renders n with
          | some t2 => (p.1, t2.2 c, 1)
          | none => (p.1, .error .keyError, 0)

/-!
## Claim-specific definitions
-/

/-- No occurrence of the two-character sequence `a b`. -/
def noPair (a b : Char) : Chars → Bool
  | [] => true
  | [_] => true
  | c :: d :: r => !(c == a && d == b) && noPair a b (d :: r)

/-- The line starting here does not begin (after spaces) with `%`. -/
def lineOk (s : Chars) : Bool :=
  (s.dropWhile (· = ' ')).head? != some '%'

/-- No line after a newline begins (after spaces) with `%`. -/
def noStmtNl : Chars → Bool
  | [] => true
  | c :: r => (c != '\n' || lineOk r) && noStmtNl r

/-- A source consisting only of literal text: no `{{` variable opener, no
`\`+newline line join, no CRLF pair, and no line whose first non-space
character is the statement leader `%` (which also rules out the `%%`
escape). -/
def litOnly (s : Chars) : Bool :=
  noPair '{' '{' s && noPair '\\' '\n' s && noPair '\r' '\n' s && lineOk s && noStmtNl s

/-- The grouped body of a `%def` block whose body is one markup line. -/
def defChildren (l : Nat) (body : Chars) : List Node :=
  [.mk (l + 1) .outk (.out [⟨l + 1, .markup, .s body⟩]),
   .mk (l + 2) .endk (.s "enddef".toList)]

/-- The node of `%def nm():` … markup … `%enddef`. -/
def defNode (l : Nat) (nm body : Chars) : Node :=
  .mk l .defk (.blk ("def ".toList ++ nm ++ "():".toList) (defChildren l body))

/-- The closure value such a def compiles to. -/
def defClosure (l : Nat) (body : Chars) (env : Env) (dflt : List Chars) : Val :=
  .vfun (defChildren l body) env dflt

/-- The parse nodes of a child template
`%extends("pname")` + `%def nm():` bodyC `%enddef` —
the family of C1: all effective top-level nodes are the extends node and
its def blocks. -/
def childNodes (pname nm bodyC : Chars) : List Node :=
  [.mk 1 .ext (.blk ('"' :: (pname ++ ['"'])) [defNode 2 nm bodyC])]

/-- The parse nodes of a parent template: leading markup `pre`, its own
`%def nm():` bodyP `%enddef` (the overridable block), and an out group
invoking `{{nm()}}` followed by markup `post`. -/
def parentNodes (nm pre bodyP post : Chars) : List Node :=
  [.mk 1 .outk (.out [⟨1, .markup, .s pre⟩]),
   defNode 2 nm bodyP,
   .mk 5 .outk (.out [⟨5, .var, .s (nm ++ "()".toList)⟩, ⟨5, .markup, .s post⟩])]

/-- A well-formed `require` name: nonempty, word characters only (the
identifiers `render_template` passes come from Python keyword-argument
names). -/
def goodKey (k : Chars) : Bool :=
  !k.isEmpty && k.all isWordChar

/-- Trivial pipeline stages over `Unit`, for concrete abstract-engine
states. -/
def trivStage : Unit → Except PyErr Unit := fun a => .ok a

def trivLoad : Option String → Except PyErr Unit := fun _ => .ok ()

def trivExe : Unit → Except PyErr (Unit → Except PyErr Unit) :=
  fun _ => .ok (fun _ => .ok ())

/-- A compiled routine raising `KeyError` (a missing context key). -/
def keyErrRoutine : Unit → Except PyErr Unit := fun _ => .error .keyError

/-- An engine whose caches hold the template `"t"` with that routine. -/
def cachedKeyErrEng : AEng Unit Unit :=
  ⟨[("t", (0, keyErrRoutine))], [("t", (0, keyErrRoutine))], [], 1⟩

/-- A compiled routine raising a non-KeyError render-time error. -/
def typeErrRoutine : Unit → Except PyErr Unit := fun _ => .error .typeErr

def cachedTypeErrEng : AEng Unit Unit :=
  ⟨[("t", (7, typeErrRoutine))], [("t", (7, typeErrRoutine))], [], 1⟩

/-- Concrete engine and one-key context for the require-line claim. -/
def c10eng : Eng := mkEng []

def c10ctx : Ctx := [(['a'], .vint 1)]

/-- The parent template and engine for the concrete override instance. -/
def c1parentTpl : Tpl := ⟨parentNodes ['b', 'k'] "A".toList "P".toList "B".toList, ["str".toList]⟩

def c1eng : Eng := ⟨[], [(['p'], c1parentTpl)], ["str".toList]⟩


/-!
## General lemmas
-/

theorem slookup_cons {α : Type} (a : String) (b : α) (m : List (String × α)) (k : String) :
    slookup ((a, b) :: m) k = if a == k then some b else slookup m k := by
  by_cases h : a == k
  · simp [slookup, List.find?_cons_of_pos, h]
  · simp only [slookup, List.find?]
    rw [show ((a, b).1 == k) = false by simpa using h]
    simp [slookup, h]

theorem slookup_serase {α : Type} (m : List (String × α)) (n : String) :
    slookup (serase m n) n = none := by
  have key : ∀ l : List (String × α),
      List.find? (fun p => p.1 == n) (List.filter (fun p => p.1 != n) l) = none := by
    intro l
    induction l with
    | nil => rfl
    | cons a l ih =>
        rw [List.filter_cons]
        by_cases h : a.1 = n
        · rw [if_neg (by simp [h])]
          exact ih
        · rw [if_pos (by simp [h]), List.find?_cons_of_neg]
          · exact ih
          · simp [h]
  simp [slookup, serase, key]

theorem parseIterAux_allOut (ts : List Token) : ∀ (fuel : Nat) (ops : List Token)
    (acc : List Node), ts.length < fuel → (∀ t ∈ ts, isOutTok t.kind = true) →
    parseIterAux fuel ts ops acc = .ok ((pushOut (ops ++ ts) acc).reverse, []) := by
  induction ts with
  | nil =>
      intro fuel ops acc hf _
      match fuel, hf with
      | fuel + 1, _ => simp [parseIterAux]
  | cons t rest ih =>
      intro fuel ops acc hf hall
      match fuel, hf with
      | fuel + 1, hf =>
          have ht : isOutTok t.kind = true := hall t (by simp)
          have hrest : ∀ u ∈ rest, isOutTok u.kind = true := fun u hu => hall u (by simp [hu])
          rw [parseIterAux, if_pos ht,
            ih fuel (ops ++ [t]) acc (by simpa using Nat.lt_of_succ_lt_succ hf) hrest]
          simp

theorem tokenizeLoop_lines (rules : List Rule) :
    ∀ (fuel line : Nat) (prev : Char) (s : Chars) (ts : List Token),
    tokenizeLoop rules fuel line prev s = .ok ts →
    List.Chain' (· ≤ ·) (ts.map Token.line) ∧ ∀ u ∈ ts, line ≤ u.line := by
  intro fuel
  induction fuel with
  | zero => intro line prev s ts h; exact absurd h (by simp [tokenizeLoop])
  | succ f ih =>
      intro line prev s ts h
      rw [tokenizeLoop] at h
      by_cases hs : s = []
      · rw [if_pos hs] at h
        cases h
        simp
      · rw [if_neg hs] at h
        split at h
        · cases h
        · cases h
        · split at h
          · cases h
          · split at h
            · rename_i ts' hrec
              cases h
              obtain ⟨hch, hge⟩ := ih _ _ _ _ hrec
              refine ⟨?_, ?_⟩
              · rw [List.map_cons, List.chain'_cons']
                refine ⟨?_, hch⟩
                intro y hy
                match ts', hrec, hge, hy with
                | u :: ts'', hrec, hge, hy =>
                    simp only [List.map_cons, List.head?_cons, Option.mem_def,
                      Option.some.injEq] at hy
                    subst hy
                    exact le_trans (Nat.le_add_right _ _) (hge u (by simp))
              · intro u hu
                rcases List.mem_cons.mp hu with h1 | h2
                · subst h1; exact le_rfl
                · exact le_trans (Nat.le_add_right _ _) (hge u h2)
            · cases h

/-!
## The claims
-/

/-- C2, counterexample.  The spec's example
`"%for x in items\n{{x}}\n%endfor\n"` with `items = [1,2,3]` does NOT
render `"123"`: the `%for` statement text is copied verbatim into the
generated Python routine, and without a trailing colon it is not a valid
Python `for` header, so compiling the generated source fails (in Python a
`SyntaxError` from `compile()` inside `compile_template`; in this model
the same `.pySynErr` at the compound node). -/
theorem c2_for_loop_counterexample :
    renderTemplateTop (mkEng []) none (some ("%for x in items\n{{x}}\n%endfor\n".toList))
        [("items".toList, .vlist [.vint 1, .vint 2, .vint 3])] 99 = .error .pySynErr ∧
    (Except.error .pySynErr : Except PyErr Chars) ≠ .ok ("123".toList) :=
  ⟨rfl, by simp⟩

/-- C2, amended.  With the colon the template author must write
(`%for x in items:`), rendering through `render_template` (which binds
`items` from the context via the auto-prepended `%require`) succeeds and
returns `"1\n2\n3\n"` — the newline after `{{x}}` is markup inside the
loop body and is emitted on every iteration, so the output is not
`"123"`. -/
theorem c2_for_loop_amended :
    renderTemplateTop (mkEng []) none (some ("%for x in items:\n{{x}}\n%endfor\n".toList))
        [("items".toList, .vlist [.vint 1, .vint 2, .vint 3])] 99 =
      .ok ("1\n2\n3\n".toList) :=
  rfl

/-- C3, counterexample.  `"%if true\nX\n"` has its unterminated `%if` on
line 1, but the structural error reports line 2 — `parse_iter` reports
`vals[-1][0]`, the line of the LAST node grouped into the unclosed block,
not the opener's line. -/
theorem c3_missing_end_counterexample :
    tokenize ("%if true\nX\n".toList) =
        .ok [⟨1, .compound, .s ("if true".toList)⟩, ⟨2, .markup, .s ("X\n".toList)⟩] ∧
    parseSource ("%if true\nX\n".toList) = .error (.missingEnd 2) ∧ (2 : Nat) ≠ 1 :=
  ⟨rfl, rfl, by simp⟩

/-- C3, amended.  When a compound opener (not `extends`) is never closed
and its body groups at least one node, compilation fails with the
structural missing-`end` error, and the reported line is the line of the
last node grouped into the unclosed block — for a body of consecutive
output tokens, the line of the first token of that trailing out-group —
not the line of the opener. -/
theorem c3_missing_end_amended (l0 : Nat) (v : TokVal) (t : Token) (ts : List Token)
    (hall : ∀ u ∈ t :: ts, isOutTok u.kind = true) :
    parseIter (⟨l0, .compound, v⟩ :: t :: ts) = .error (.missingEnd t.line) := by
  rw [parseIter]
  simp only [List.length_cons]
  rw [parseIterAux]
  rw [show isOutTok TKind.compound = false from rfl, if_neg (by simp)]
  simp only [pushOut]
  rw [if_pos (show isCompoundTok TKind.compound = true from rfl)]
  rw [parseIterAux_allOut (t :: ts) (ts.length + 1 + 1) [] [] (by simp) hall]
  simp [pushOut, Node.kind, Node.line]

/-- C3, witness for the amended theorem. -/
theorem c3_missing_end_amended_witness :
    parseIter [⟨1, .compound, .s ("if true".toList)⟩, ⟨2, .markup, .s ['X']⟩,
        ⟨3, .var, .s ['y']⟩] = .error (.missingEnd 2) :=
  c3_missing_end_amended 1 (.s ("if true".toList)) ⟨2, .markup, .s ['X']⟩
    [⟨3, .var, .s ['y']⟩] (by decide)

/-- C9, counterexample.  Tokenizing `"a{{x}}"` yields a markup token and
a var token both on line 1: token line numbers are NOT strictly
increasing — two tokens cut from the same source line share a line
number. -/
theorem c9_lines_counterexample :
    tokenize ("a{{x}}".toList) = .ok [⟨1, .markup, .s ['a']⟩, ⟨1, .var, .s ['x']⟩] ∧
    ¬ List.Chain' (· < ·) (([⟨1, .markup, .s ['a']⟩,
        ⟨1, .var, .s ['x']⟩] : List Token).map Token.line) :=
  ⟨rfl, by simp [List.chain'_cons, Token.line]⟩

/-- C9, amended.  For every source string, the token sequence returned by
`Lexer.tokenize` is in NON-DECREASING line order: the loop appends the
current `lineno` to each token and then only ever adds the (nonnegative)
count of consumed newlines. -/
theorem c9_lines_amended (src : Chars) (ts : List Token)
    (h : tokenize src = .ok ts) :
    List.Chain' (· ≤ ·) (ts.map Token.line) := by
  rw [tokenize] at h
  exact (tokenizeLoop_lines parserRules _ _ _ _ ts h).1

/-- C9, witness for the amended theorem. -/
theorem c9_lines_amended_witness :
    List.Chain' (· ≤ ·) (([⟨1, .markup, .s ['a']⟩,
        ⟨1, .var, .s ['x']⟩] : List Token).map Token.line) :=
  c9_lines_amended ("a{{x}}".toList) _ rfl

theorem noPair_tail (a b c : Char) (r : Chars) (h : noPair a b (c :: r) = true) :
    noPair a b r = true := by
  cases r with
  | nil => rfl
  | cons d r2 =>
      simp only [noPair, Bool.and_eq_true] at h
      exact h.2

theorem noPair_head (a b c d : Char) (r : Chars) (h : noPair a b (c :: d :: r) = true) :
    ¬(c = a ∧ d = b) := by
  intro hh
  simp only [noPair, Bool.and_eq_true] at h
  have h1 := h.1
  rw [hh.1, hh.2] at h1
  simp at h1

theorem crlfNorm_self (s : Chars) (h : noPair '\r' '\n' s = true) : crlfNorm s = s := by
  induction s with
  | nil => rfl
  | cons c r ih =>
      cases r with
      | nil => rfl
      | cons d r2 =>
          rw [crlfNorm, if_neg (noPair_head _ _ _ _ _ h)]
          rw [ih (noPair_tail _ _ _ _ h)]

theorem lineJoinSub_self (s : Chars) (h : noPair '\\' '\n' s = true) :
    lineJoinSub s = s := by
  induction s with
  | nil => rfl
  | cons c r ih =>
      cases r with
      | nil => rfl
      | cons d r2 =>
          rw [lineJoinSub, if_neg (noPair_head _ _ _ _ _ h)]
          rw [ih (noPair_tail _ _ _ _ h)]

theorem lineOk_cons_space (t : Chars) : lineOk (' ' :: t) = lineOk t := by
  simp [lineOk, List.dropWhile]

theorem lineOk_head (c : Char) (t : Chars) (hc : ¬c = ' ') (h : lineOk (c :: t) = true) :
    ¬c = '%' := by
  simp only [lineOk, List.dropWhile, hc, if_false, decide_eq_true_eq] at h
  simpa using h

theorem stmtAheadOk_false (t : Chars) (h : lineOk t = true) : stmtAheadOk t = false := by
  rw [stmtAheadOk]
  rw [lineOk] at h
  match hd : t.dropWhile (· = ' ') with
  | [] => rfl
  | [x] => rfl
  | x :: y :: r =>
      rw [hd] at h
      simp only [List.head?_cons, bne_iff_ne, ne_eq, Option.some.injEq] at h
      simp [show (x == '%') = false by simpa using h]

theorem noStmtNl_tail (c : Char) (r : Chars) (h : noStmtNl (c :: r) = true) :
    noStmtNl r = true := by
  simp only [noStmtNl, Bool.and_eq_true] at h
  exact h.2

theorem noStmtNl_nl (r : Chars) (h : noStmtNl ('\n' :: r) = true) : lineOk r = true := by
  simp only [noStmtNl, Bool.and_eq_true, Bool.or_eq_true] at h
  rcases h.1 with h1 | h1
  · simp at h1
  · exact h1

/-- Under the literal-only side conditions the `%%` unescape is the
identity: there is no `%` right after a line start. -/
theorem subEsc_self (s : Chars) :
    (noStmtNl s = true → subEsc s = s) ∧
    (lineOk s = true → noStmtNl s = true → subEscNl s = s) := by
  induction s with
  | nil => exact ⟨fun _ => rfl, fun _ _ => rfl⟩
  | cons c r ih =>
      constructor
      · intro h
        rw [subEsc]
        by_cases hc : c = '\n'
        · subst hc
          rw [if_pos rfl, ih.2 (noStmtNl_nl r h) (noStmtNl_tail _ _ h)]
        · rw [if_neg hc, ih.1 (noStmtNl_tail _ _ h)]
      · intro hl h
        cases r with
        | nil => rfl
        | cons d r2 =>
            rw [subEscNl]
            by_cases hsp : c = ' '
            · subst hsp
              rw [if_pos rfl, ih.2 (by simpa [lineOk_cons_space] using hl)
                (noStmtNl_tail _ _ h)]
            · rw [if_neg hsp]
              by_cases hnl : c = '\n'
              · subst hnl
                rw [if_pos rfl, ih.2 (noStmtNl_nl _ h) (noStmtNl_tail _ _ h)]
              · rw [if_neg hnl]
                have hpc : ¬c = '%' := lineOk_head c (d :: r2) hsp hl
                rw [if_neg (fun hh => hpc hh.1), ih.1 (noStmtNl_tail _ _ h)]

theorem markupScan_none (s : Chars) (hb : noPair '{' '{' s = true)
    (hn : noStmtNl s = true) : markupScan s = none := by
  induction s with
  | nil => rfl
  | cons c r ih =>
      rw [markupScan]
      have hbr : ¬(c = '{' ∧ r.head? = some '{') := by
        cases r with
        | nil => simp
        | cons d r2 =>
            intro hh
            simp only [List.head?_cons, Option.some.injEq] at hh
            exact noPair_head _ _ _ _ _ hb ⟨hh.1, hh.2⟩
      rw [if_neg hbr]
      by_cases hnl : c = '\n'
      · subst hnl
        rw [if_pos rfl, stmtAheadOk_false r (noStmtNl_nl _ hn)]
        simp [ih (noPair_tail _ _ _ _ hb) (noStmtNl_tail _ _ hn)]
      · rw [if_neg hnl, ih (noPair_tail _ _ _ _ hb) (noStmtNl_tail _ _ hn)]
        rfl

theorem stmtTok_fail_of_lineOk (s : Chars) (h : lineOk s = true) :
    stmtTok '\n' s = .fail := by
  rw [lineOk] at h
  rcases hd : s.dropWhile (· = ' ') with _ | ⟨c, t⟩
  · simp [stmtTok, hd]
  · rw [hd] at h
    simp only [List.head?_cons, bne_iff_ne, ne_eq, Option.some.injEq] at h
    simp [stmtTok, hd, h]

theorem varTok_fail_of_noPair (s : Chars) (h : noPair '{' '{' s = true) :
    varTok s = .fail := by
  match s with
  | [] => rfl
  | [c] => rfl
  | a :: b :: r =>
      rw [varTok, if_neg (noPair_head _ _ _ _ _ h)]

/-- The lexer turns a literal-only nonempty source into one markup token
on line 1 whose value is the source itself. -/
theorem tokenize_literal (s : Chars) (h : litOnly s = true) (hne : s ≠ []) :
    tokenize s = .ok [⟨1, .markup, .s s⟩] := by
  simp only [litOnly, Bool.and_eq_true] at h
  obtain ⟨⟨⟨⟨hbb, hlj⟩, hcr⟩, hlo⟩, hnn⟩ := h
  have hpos : 0 < s.length := List.length_pos.mpr hne
  have hmt : mtok '\n' s = .tok s.length .markup (.s s) := by
    simp only [mtok, markupScan_none s hbb hnn, if_neg hne]
    rw [show subEsc ('\n' :: s) = '\n' :: s by
      rw [subEsc, if_pos rfl, (subEsc_self s).2 hlo hnn]]
    simp [lineJoinSub_self s hlj]
  have hfr : firstRule parserRules '\n' s = .tok s.length .markup (.s s) := by
    simp [parserRules, firstRule, stmtTok_fail_of_lineOk s hlo,
      varTok_fail_of_noPair s hbb, hmt]
  rw [tokenize, crlfNorm_self s hcr]
  rw [show s.length + 1 = (s.length - 1 + 1) + 1 by omega]
  rw [tokenizeLoop, if_neg hne, hfr]
  have hloop : tokenizeLoop parserRules (s.length - 1 + 1) (1 + s.count '\n')
      (s.getLastD '\n') [] = .ok [] := by rw [tokenizeLoop]; simp
  simp only [if_neg (show ¬(s.length = 0) by omega), List.take_length,
    List.drop_length, hloop]

/-- C4, counterexample.  A template whose source is the pure literal text
`"a\r\nb"` — no statements, no variable expressions, no directives —
renders to `"a\nb"`, not to the source: `Lexer.tokenize` normalizes CRLF
line endings before lexing, so the output differs from the literal
text. -/
theorem c4_literal_crlf_counterexample :
    renderSrc (mkEng []) ("a\r\nb".toList) [] 9 = .ok ("a\nb".toList) ∧
    ("a\nb".toList : Chars) ≠ "a\r\nb".toList :=
  ⟨rfl, by decide⟩

/-- C4, amended.  For every template whose source is only literal text
with no CRLF sequence (no `{{`, no line whose first non-space character
is `%`, no backslash line join, no `\r\n`), rendering returns exactly
that literal text, for every engine and every context — the generated
routine is `return '…'`, which never consults the context. -/
theorem c4_literal_amended (src : Chars) (eng : Eng) (ctx : Ctx) (f : Nat)
    (h : litOnly src = true) :
    renderSrc eng src ctx (f + 1) = .ok src := by
  by_cases hne : src = []
  · subst hne
    simp [renderSrc, engCompile, parseSource, tokenize, tokenizeLoop, crlfNorm,
      parseIter, parseIterAux, pushOut, execRender]
  · rw [renderSrc]
    have ht := tokenize_literal src h hne
    have hp : parseSource src = .ok [.mk 1 .outk (.out [⟨1, .markup, .s src⟩])] := by
      rw [parseSource, ht]
      simp [endContinue, parseIter, parseIterAux, pushOut, isOutTok]
    rw [show engCompile eng none (some src) =
          (eng, .ok ⟨[.mk 1 .outk (.out [⟨1, .markup, .s src⟩])], eng.dfilters⟩) by
      simp [engCompile, hp]]
    simp [execRender, Node.kind]

/-- C4, witness for the amended theorem. -/
theorem c4_literal_amended_witness :
    renderSrc (mkEng []) ("hello world\n".toList)
      [("k".toList, .vint 1)] 1 = .ok ("hello world\n".toList) :=
  c4_literal_amended ("hello world\n".toList) (mkEng []) [("k".toList, .vint 1)] 0
    (by decide)

theorem takeWhile_append_all {p : Char → Bool} (a b : Chars) (h : ∀ c ∈ a, p c = true) :
    (a ++ b).takeWhile p = a ++ b.takeWhile p := by
  induction a with
  | nil => rfl
  | cons c a ih =>
      rw [List.cons_append, List.takeWhile_cons, if_pos (h c (by simp)),
        ih (fun c hc => h c (by simp [hc]))]
      rfl

theorem dropWhile_append_all {p : Char → Bool} (a b : Chars) (h : ∀ c ∈ a, p c = true) :
    (a ++ b).dropWhile p = b.dropWhile p := by
  induction a with
  | nil => rfl
  | cons c a ih =>
      rw [List.cons_append, List.dropWhile_cons, if_pos (h c (by simp))]
      exact ih (fun c hc => h c (by simp [hc]))

theorem dropWhile_append_ne_nil {p : Char → Bool} (a b : Chars) (h : a.dropWhile p ≠ []) :
    (a ++ b).dropWhile p = a.dropWhile p ++ b := by
  induction a with
  | nil => exact absurd rfl h
  | cons c a ih =>
      rw [List.cons_append, List.dropWhile_cons, List.dropWhile_cons]
      rw [List.dropWhile_cons] at h
      by_cases hp : p c = true
      · rw [if_pos hp, if_pos hp]
        rw [if_pos hp] at h
        exact ih h
      · rw [if_neg hp, if_neg hp, List.cons_append]

theorem dropWhile_eq_self_of_head {p : Char → Bool} (s : Chars)
    (h : ∀ c, s.head? = some c → p c = false) : s.dropWhile p = s := by
  cases s with
  | nil => rfl
  | cons c r => rw [List.dropWhile_cons, if_neg (by simp [h c rfl])]

/-- A word character is not whitespace, not a separator, not any of the
syntax characters the scanners look for. -/
theorem wordChar_not (c : Char) (h : isWordChar c = true) :
    isWs c = false ∧ ¬c = ',' ∧ ¬c = '\n' ∧ ¬c = '\\' ∧ ¬c = ')' ∧ ¬c = '(' ∧
      ¬c = '\r' ∧ ¬c = '|' := by
  refine ⟨?_, ?_, ?_, ?_, ?_, ?_, ?_, ?_⟩
  · by_contra hw
    rw [Bool.not_eq_false] at hw
    have hws : c = ' ' ∨ c = '\t' ∨ c = '\n' ∨ c = '\r' ∨ c = '\x0b' ∨ c = '\x0c' := by
      simpa [isWs, or_assoc] using hw
    rcases hws with h1 | h1 | h1 | h1 | h1 | h1 <;> subst h1 <;> exact absurd h (by decide)
  all_goals intro h1
  all_goals subst h1
  all_goals exact absurd h (by decide)

theorem noPair_of_no_first (a b : Char) (s : Chars) (h : ∀ c ∈ s, ¬c = a) :
    noPair a b s = true := by
  induction s with
  | nil => rfl
  | cons c r ih =>
      cases r with
      | nil => rfl
      | cons d r2 =>
          simp only [noPair, Bool.and_eq_true]
          refine ⟨by simp [h c (by simp)], ih (fun x hx => h x (by simp [hx]))⟩

/-- Every character of `" ".join(keys)` for well-formed keys is a word
character or a space. -/
theorem joinSpace_chars (keys : List Chars) (h : ∀ k ∈ keys, goodKey k = true) :
    ∀ c ∈ joinSpace keys, isWordChar c = true ∨ c = ' ' := by
  induction keys with
  | nil => intro c hc; cases hc
  | cons k ks ih =>
      intro c hc
      have hk : ∀ x ∈ k, isWordChar x = true := by
        have := h k (by simp)
        simp only [goodKey, Bool.and_eq_true, List.all_eq_true] at this
        exact fun x hx => this.2 x hx
      cases ks with
      | nil =>
          rw [joinSpace] at hc
          exact Or.inl (hk c hc)
      | cons k2 ks2 =>
          rw [joinSpace] at hc
          rcases List.mem_append.mp hc with h1 | h1
          · exact Or.inl (hk c h1)
          · rcases List.mem_cons.mp h1 with h2 | h2
            · exact Or.inr h2
            · exact ih (fun x hx => h x (by simp [hx])) c h2

theorem joinSpace_ne_nil (keys : List Chars) (hne : keys ≠ [])
    (h : ∀ k ∈ keys, goodKey k = true) : joinSpace keys ≠ [] := by
  cases keys with
  | nil => exact absurd rfl hne
  | cons k ks =>
      have hk := h k (by simp)
      simp only [goodKey, Bool.and_eq_true, Bool.not_eq_true'] at hk
      have hkne : k ≠ [] := fun he => by
        rw [he] at hk
        simp at hk
      cases ks with
      | nil =>
          rw [joinSpace]
          exact hkne
      | cons k2 ks2 =>
          rw [joinSpace]
          cases k with
          | nil => exact absurd rfl hkne
          | cons c k' => simp

theorem joinSpace_head (keys : List Chars) (h : ∀ k ∈ keys, goodKey k = true) :
    ∀ c, (joinSpace keys).head? = some c → isWordChar c = true := by
  intro c hc
  cases keys with
  | nil => cases hc
  | cons k ks =>
      have hk := h k (by simp)
      simp only [goodKey, Bool.and_eq_true, List.all_eq_true] at hk
      cases k with
      | nil => simp at hk
      | cons x k' =>
          have hj : (joinSpace ((x :: k') :: ks)).head? = some x := by
            cases ks with
            | nil => rfl
            | cons k2 ks2 => rfl
          rw [hj] at hc
          cases hc
          exact hk.2 _ (by simp)

theorem joinSpace_last (keys : List Chars) (h : ∀ k ∈ keys, goodKey k = true) :
    ∀ c, (joinSpace keys).reverse.head? = some c → isWordChar c = true := by
  induction keys with
  | nil => intro c hc; cases hc
  | cons k ks ih =>
      intro c hc
      cases ks with
      | nil =>
          rw [joinSpace] at hc
          have hk := h k (by simp)
          simp only [goodKey, Bool.and_eq_true, List.all_eq_true] at hk
          have hcm : c ∈ k.reverse := List.mem_of_mem_head? hc
          rw [List.mem_reverse] at hcm
          exact hk.2 c hcm
      | cons k2 ks2 =>
          rw [joinSpace, List.reverse_append] at hc
          have hne2 : joinSpace (k2 :: ks2) ≠ [] :=
            joinSpace_ne_nil _ (by simp) (fun x hx => h x (by simp [hx]))
          rw [List.reverse_cons,
            List.head?_append_of_ne_nil _ (by simp [hne2])] at hc
          rw [List.head?_append_of_ne_nil _ (by simp [hne2])] at hc
          exact ih (fun x hx => h x (by simp [hx])) c hc

/-- `" ".join(keys)` starts and ends with a word character, so
`strip()` leaves it unchanged. -/
theorem stripWs_joinSpace (keys : List Chars) (h : ∀ k ∈ keys, goodKey k = true) :
    stripWs (joinSpace keys) = joinSpace keys := by
  have hdrop : (joinSpace keys).dropWhile isWs = joinSpace keys :=
    dropWhile_eq_self_of_head _
      (fun c hc => (wordChar_not c (joinSpace_head keys h c hc)).1)
  have hrev : (joinSpace keys).reverse.dropWhile isWs = (joinSpace keys).reverse :=
    dropWhile_eq_self_of_head _
      (fun c hc => (wordChar_not c (joinSpace_last keys h c hc)).1)
  rw [stripWs, hdrop, rstripWs, hrev, List.reverse_reverse]

/-- `findallAux` passes over a run of word characters, accumulating it. -/
theorem findallAux_run (k : Chars) (hall : ∀ c ∈ k, isWordChar c = true) :
    ∀ (acc s : Chars), findallAux acc (k ++ s) = findallAux (k.reverse ++ acc) s := by
  induction k with
  | nil => intro acc s; rfl
  | cons c k ih =>
      intro acc s
      have hc := wordChar_not c (hall c (by simp))
      rw [List.cons_append, findallAux, if_neg (by simp [hc.1, hc.2.1])]
      rw [ih (fun x hx => hall x (by simp [hx])) (c :: acc) s]
      simp

/-- `re.findall(r'([^\s,]+)[\s,]*', ...)` splits `" ".join(keys)` back
into exactly the keys. -/
theorem findallIdents_joinSpace (keys : List Chars) (h : ∀ k ∈ keys, goodKey k = true) :
    findallIdents (joinSpace keys) = keys := by
  induction keys with
  | nil => rfl
  | cons k ks ih =>
      have hk := h k (by simp)
      simp only [goodKey, Bool.and_eq_true, List.all_eq_true] at hk
      have hkne : k ≠ [] := by
        cases k with
        | nil => simp at hk
        | cons c k' => simp
      cases ks with
      | nil =>
          rw [joinSpace, findallIdents]
          have h0 := findallAux_run k hk.2 [] []
          rw [List.append_nil] at h0
          rw [h0, findallAux]
          simp [hkne]
      | cons k2 ks2 =>
          rw [joinSpace, findallIdents]
          rw [findallAux_run k hk.2 [] (' ' :: joinSpace (k2 :: ks2))]
          rw [findallAux, if_pos (by simp [isWs])]
          rw [if_neg (by simpa using hkne)]
          rw [← findallIdents, ih (fun x hx => h x (by simp [hx]))]
          simp

/-- C5, auxiliary: `str.split('|')` around a separator. -/
theorem splitPipe_append (v s : Chars) (h : '|' ∉ v) :
    splitPipe (v ++ '|' :: s) = v :: splitPipe s := by
  induction v with
  | nil => simp [splitPipe]
  | cons c v ih =>
      have hc : ¬c = '|' := fun hh => h (by simp [hh])
      have hv : '|' ∉ v := fun hh => h (by simp [hh])
      simp only [List.cons_append, splitPipe, if_neg hc, List.append_eq, ih hv]

/-- C5, auxiliary: splitting a pipe-free string. -/
theorem splitPipe_no_pipe (s : Chars) (h : '|' ∉ s) : splitPipe s = [s] := by
  induction s with
  | nil => rfl
  | cons c s ih =>
      have hc : ¬c = '|' := fun hh => h (by simp [hh])
      have hs : '|' ∉ s := fun hh => h (by simp [hh])
      simp only [splitPipe, if_neg hc, ih hs]

/-- C5.  For a variable expression `{{ v|f1|f2 }}` (pipe-free,
already-stripped pieces), the code `build_out` generates applies the
filters left-to-right — `f1` to `v` first, then `f2` around the result —
and then wraps the engine-configured default filters around all of it;
if and only if the chain's final element is the literal `n` is that
marker dropped, with no default filters applied. -/
theorem c5_filter_chain (v f1 f2 : Chars) (defaults : List Chars)
    (hv : '|' ∉ v) (h1 : '|' ∉ f1) (h2 : '|' ∉ f2)
    (sv : stripWs v = v) (s1 : stripWs f1 = f1) (s2 : stripWs f2 = f2) :
    (f2 ≠ ['n'] →
      buildVarCode (v ++ '|' :: (f1 ++ '|' :: f2)) defaults =
        defaults.foldl (fun acc f => builderFilters f ++ '(' :: (acc ++ [')']))
          (builderFilters f2 ++ '(' ::
            ((builderFilters f1 ++ '(' :: (v ++ [')'])) ++ [')']))) ∧
    (f2 = ['n'] →
      buildVarCode (v ++ '|' :: (f1 ++ '|' :: f2)) defaults =
        builderFilters f1 ++ '(' :: (v ++ [')'])) := by
  have hsplit : splitPipe (v ++ '|' :: (f1 ++ '|' :: f2)) = [v, f1, f2] := by
    rw [splitPipe_append v _ hv, splitPipe_append f1 _ h1, splitPipe_no_pipe f2 h2]
  constructor
  · intro h
    rw [buildVarCode, varFilterChain, hsplit]
    simp [sv, s1, s2, h]
  · intro h
    subst h
    rw [buildVarCode, varFilterChain, hsplit]
    simp [sv, s1, s2]

/-- C5, witness: `{{ v|upper|e }}` with default filters `['str']`
generates `str(escape(upper(v)))` — and with a trailing `|n`
(`{{ v|upper|n }}`) just `upper(v)`. -/
theorem c5_filter_chain_witness :
    buildVarCode ("v|upper|e".toList) ["str".toList] = "str(escape(upper(v)))".toList ∧
    buildVarCode ("v|upper|n".toList) ["str".toList] = "upper(v)".toList := by
  constructor
  · have h := (c5_filter_chain ("v".toList) ("upper".toList) ("e".toList) ["str".toList]
      (by decide) (by decide) (by decide) (by decide) (by decide) (by decide)).1 (by decide)
    exact h
  · have h := (c5_filter_chain ("v".toList) ("upper".toList) ("n".toList) ["str".toList]
      (by decide) (by decide) (by decide) (by decide) (by decide) (by decide)).2 rfl
    exact h

/-- C6.  For a non-null name not yet cached whose build pipeline
succeeds: the first `get_template` compiles, caches, and returns the
template stamped with the current build counter; a second call returns
that identical cached object with the engine state untouched (in
particular the build counter has not moved — no recompilation); and
`remove(name)` followed by `get_template(name)` rebuilds exactly once:
the result is a freshly stamped object and the build counter has
advanced by exactly one. -/
theorem c6_cache_identity {A B G D E5 C O : Type}
    (load : Option String → Except PyErr A) (tokz : A → Except PyErr B)
    (grp : B → Except PyErr G) (cgen : G → Except PyErr D) (pcmp : D → Except PyErr E5)
    (pexe : E5 → Except PyErr (C → Except PyErr O))
    (eng : AEng C O) (n : String) (code : E5) (r : C → Except PyErr O)
    (hft : slookup eng.templates n = none)
    (h5 : aStage5 load tokz grp cgen pcmp (some n) = .ok code)
    (hx : pexe code = .ok r) :
    aGetTpl load tokz grp cgen pcmp pexe eng (some n) =
      ({ templates := (n, (eng.counter, r)) :: eng.templates,
         renders := (n, (eng.counter, r)) :: eng.renders,
         modules := eng.modules, counter := eng.counter + 1 }, .ok (eng.counter, r)) ∧
    aGetTpl load tokz grp cgen pcmp pexe
        ({ templates := (n, (eng.counter, r)) :: eng.templates,
           renders := (n, (eng.counter, r)) :: eng.renders,
           modules := eng.modules, counter := eng.counter + 1 } : AEng C O) (some n) =
      ({ templates := (n, (eng.counter, r)) :: eng.templates,
         renders := (n, (eng.counter, r)) :: eng.renders,
         modules := eng.modules, counter := eng.counter + 1 }, .ok (eng.counter, r)) ∧
    (aGetTpl load tokz grp cgen pcmp pexe
        (aRemove ({ templates := (n, (eng.counter, r)) :: eng.templates,
                    renders := (n, (eng.counter, r)) :: eng.renders,
                    modules := eng.modules, counter := eng.counter + 1 } : AEng C O) n).1
        (some n)).2 = .ok (eng.counter + 1, r) ∧
    (aGetTpl load tokz grp cgen pcmp pexe
        (aRemove ({ templates := (n, (eng.counter, r)) :: eng.templates,
                    renders := (n, (eng.counter, r)) :: eng.renders,
                    modules := eng.modules, counter := eng.counter + 1 } : AEng C O) n).1
        (some n)).1.counter = eng.counter + 2 := by
  have h1 : aGetTpl load tokz grp cgen pcmp pexe eng (some n) =
      ({ templates := (n, (eng.counter, r)) :: eng.templates,
         renders := (n, (eng.counter, r)) :: eng.renders,
         modules := eng.modules, counter := eng.counter + 1 }, .ok (eng.counter, r)) := by
    simp [aGetTpl, aCompileTpl, hft, h5, hx]
  have hself : ∀ (m : List (String × ATpl C O)) (t : ATpl C O),
      slookup ((n, t) :: m) n = some t := by
    intro m t
    simp [slookup_cons]
  refine ⟨h1, ?_, ?_, ?_⟩
  · simp [aGetTpl, hself]
  · rw [aRemove]
    rw [show (slookup ((n, (eng.counter, r)) :: eng.renders) n).isSome = true by
      simp [hself]]
    rw [show (slookup ((n, (eng.counter, r)) :: eng.templates) n).isSome = true by
      simp [hself]]
    simp [aGetTpl, aCompileTpl, slookup_serase, h5, hx]
  · rw [aRemove]
    rw [show (slookup ((n, (eng.counter, r)) :: eng.renders) n).isSome = true by
      simp [hself]]
    rw [show (slookup ((n, (eng.counter, r)) :: eng.templates) n).isSome = true by
      simp [hself]]
    simp [aGetTpl, aCompileTpl, slookup_serase, h5, hx]

/-- C6, witness. -/
theorem c6_cache_identity_witness :
    aGetTpl trivLoad trivStage trivStage trivStage trivStage trivExe
        (⟨[], [], [], 0⟩ : AEng Unit Unit) (some "t") =
      ({ templates := [("t", (0, fun _ => .ok ()))],
         renders := [("t", (0, fun _ => .ok ()))],
         modules := [], counter := 1 }, .ok (0, fun _ => .ok ())) ∧
    aGetTpl trivLoad trivStage trivStage trivStage trivStage trivExe
        ({ templates := [("t", (0, fun _ => .ok ()))],
           renders := [("t", (0, fun _ => .ok ()))],
           modules := [], counter := 1 } : AEng Unit Unit) (some "t") =
      ({ templates := [("t", (0, fun _ => .ok ()))],
         renders := [("t", (0, fun _ => .ok ()))],
         modules := [], counter := 1 }, .ok (0, fun _ => .ok ())) ∧
    (aGetTpl trivLoad trivStage trivStage trivStage trivStage trivExe
        (aRemove ({ templates := [("t", (0, fun _ => .ok ()))],
                    renders := [("t", (0, fun _ => .ok ()))],
                    modules := [], counter := 1 } : AEng Unit Unit) "t").1
        (some "t")).2 = .ok (1, fun _ => .ok ()) ∧
    (aGetTpl trivLoad trivStage trivStage trivStage trivStage trivExe
        (aRemove ({ templates := [("t", (0, fun _ => .ok ()))],
                    renders := [("t", (0, fun _ => .ok ()))],
                    modules := [], counter := 1 } : AEng Unit Unit) "t").1
        (some "t")).1.counter = 2 := by
  have h := c6_cache_identity trivLoad trivStage trivStage trivStage trivStage trivExe
    (⟨[], [], [], 0⟩ : AEng Unit Unit) "t" () (fun _ => .ok ()) rfl rfl rfl
  simpa using h

/-- C7, counterexample.  A cached routine that raises `KeyError` (the
claim's own example: a missing context key) is invoked TWICE by
`Engine.render`: the `except KeyError` catches the first error, runs
`compile_template` (a cache hit), and re-invokes the routine — so "the
Engine does not catch ... it" is false, even though the error does reach
the caller in the end. -/
theorem c7_render_catch_counterexample :
    (aRender trivLoad trivStage trivStage trivStage trivStage trivExe
        cachedKeyErrEng "t" ()).2.2 = 2 ∧
    (aRender trivLoad trivStage trivStage trivStage trivStage trivExe
        cachedKeyErrEng "t" ()).2.1 = .error .keyError ∧ (2 : Nat) ≠ 1 :=
  ⟨rfl, rfl, by simp⟩

/-- C7, amended.  Any error raised by a cached compiled render routine
propagates to the caller of `Engine.render` untransformed; a non-KeyError
is never caught, while a `KeyError` is caught once, `compile_template`
re-runs (a cache hit for a cached template), and the routine's second
invocation raises the same error, which then propagates. -/
theorem c7_error_propagation {A B G D E5 C O : Type}
    (load : Option String → Except PyErr A) (tokz : A → Except PyErr B)
    (grp : B → Except PyErr G) (cgen : G → Except PyErr D) (pcmp : D → Except PyErr E5)
    (pexe : E5 → Except PyErr (C → Except PyErr O))
    (eng : AEng C O) (n : String) (c : C) (st : Nat) (r : C → Except PyErr O)
    (tb : ATpl C O) (e : PyErr)
    (hr : slookup eng.renders n = some (st, r))
    (ht : slookup eng.templates n = some tb)
    (he : r c = .error e) :
    (aRender load tokz grp cgen pcmp pexe eng n c).2.1 = .error e := by
  by_cases hk : e = .keyError
  · subst hk
    simp [aRender, hr, he, aCompileTpl, ht]
  · simp [aRender, hr, he, hk]

/-- C7, witness for the amended theorem. -/
theorem c7_error_propagation_witness :
    (aRender trivLoad trivStage trivStage trivStage trivStage trivExe
        cachedTypeErrEng "t" ()).2.1 = .error .typeErr :=
  c7_error_propagation trivLoad trivStage trivStage trivStage trivStage trivExe
    cachedTypeErrEng "t" () 7 typeErrRoutine (7, typeErrRoutine) .typeErr rfl rfl rfl

/-- C8.  If the build fails in any of the enumerated stages — loading,
tokenizing, grouping, code generation, or compiling the generated source
(the five-stage composite `aStage5` erroring) — then `compile_template`
(for an uncached name) and `compile_import` (for an uncached module)
return with the engine caches exactly as they were: every insertion
happens only after those stages have all succeeded. -/
theorem c8_insert_after_build {A B G D E5 A2 B2 G2 D2 E52 C O : Type}
    (load : Option String → Except PyErr A) (tokz : A → Except PyErr B)
    (grp : B → Except PyErr G) (cgen : G → Except PyErr D) (pcmp : D → Except PyErr E5)
    (pexe : E5 → Except PyErr (C → Except PyErr O))
    (loadI : Option String → Except PyErr A2) (tokzI : A2 → Except PyErr B2)
    (grpI : B2 → Except PyErr G2) (cgenI : G2 → Except PyErr D2)
    (pcmpI : D2 → Except PyErr E52) (mexe : E52 → Except PyErr Unit)
    (eng : AEng C O) (name? : Option String) (m : String) (e e2 : PyErr)
    (hc : ∀ n, name? = some n → slookup eng.templates n = none)
    (h5 : aStage5 load tokz grp cgen pcmp name? = .error e)
    (hm : slookup eng.modules m = none)
    (h5i : aStage5 loadI tokzI grpI cgenI pcmpI (some m) = .error e2) :
    aCompileTpl load tokz grp cgen pcmp pexe eng name? = (eng, .error e) ∧
    aCompileImp loadI tokzI grpI cgenI pcmpI mexe eng m = (eng, .error e2) := by
  constructor
  · cases name? with
    | none => simp [aCompileTpl, h5]
    | some n => simp [aCompileTpl, hc n rfl, h5]
  · simp [aCompileImp, hm, h5i]

/-- C8, witness. -/
theorem c8_insert_after_build_witness :
    aCompileTpl (fun _ => (.error .notFound : Except PyErr Unit)) trivStage trivStage
        trivStage trivStage trivExe (⟨[], [], [], 0⟩ : AEng Unit Unit) (some "t") =
      ((⟨[], [], [], 0⟩ : AEng Unit Unit), .error .notFound) ∧
    aCompileImp (fun _ => (.error .notFound : Except PyErr Unit)) trivStage trivStage
        trivStage trivStage (fun _ => .ok ()) (⟨[], [], [], 0⟩ : AEng Unit Unit) "t" =
      ((⟨[], [], [], 0⟩ : AEng Unit Unit), .error .notFound) :=
  c8_insert_after_build (fun _ => (.error .notFound : Except PyErr Unit)) trivStage
    trivStage trivStage trivStage trivExe (fun _ => (.error .notFound : Except PyErr Unit))
    trivStage trivStage trivStage trivStage (fun _ => .ok ())
    (⟨[], [], [], 0⟩ : AEng Unit Unit) (some "t") "t" .notFound .notFound
    (fun _ _ => rfl) rfl rfl rfl

theorem stmtTail_clean (a rest : Chars) :
    ∀ (pv : Char), ¬pv = '\\' → (∀ c ∈ a, ¬c = '\n' ∧ ¬c = '\\') →
    stmtTail pv (a ++ '\n' :: rest) = some (a, true, rest) := by
  induction a with
  | nil =>
      intro pv hpv _
      rw [List.nil_append, stmtTail, if_pos rfl, if_neg hpv]
  | cons c a ih =>
      intro pv hpv h
      have hc := h c (by simp)
      rw [List.cons_append, stmtTail, if_neg hc.1]
      rw [ih c hc.2 (fun x hx => h x (by simp [hx]))]
      rfl

theorem stmtTok_require (keys : List Chars) (rest : Chars)
    (hgood : ∀ k ∈ keys, goodKey k = true) :
    stmtTok '\n' (requirePrefix keys ++ rest) =
      .tok (requirePrefix keys).length .req (.ks keys) := by
  have hchars := joinSpace_chars keys hgood
  have hnbs : ∀ c ∈ ('(' :: (joinSpace keys ++ [')'])), ¬c = '\n' ∧ ¬c = '\\' := by
    intro c hc
    rcases List.mem_cons.mp hc with h1 | h1
    · subst h1; exact ⟨by decide, by decide⟩
    · rcases List.mem_append.mp h1 with h2 | h2
      · rcases hchars c h2 with hw | hsp
        · exact ⟨(wordChar_not c hw).2.2.1, (wordChar_not c hw).2.2.2.1⟩
        · subst hsp; exact ⟨by decide, by decide⟩
      · rcases List.mem_singleton.mp h2 with rfl
        exact ⟨by decide, by decide⟩
  have hshape : requirePrefix keys ++ rest =
      '%' :: 'r' :: 'e' :: 'q' :: 'u' :: 'i' :: 'r' :: 'e' :: '(' ::
        (joinSpace keys ++ ')' :: '\n' :: rest) := by
    rw [requirePrefix]
    rw [show "%require(".toList = ['%','r','e','q','u','i','r','e','('] from rfl,
      show ")\n".toList = [')', '\n'] from rfl]
    simp
  have hst : stmtTail 'e' ('(' :: (joinSpace keys ++ ')' :: '\n' :: rest)) =
      some ('(' :: (joinSpace keys ++ [')']), true, rest) := by
    have hform : ('(' : Char) :: (joinSpace keys ++ ')' :: '\n' :: rest) =
        ('(' :: (joinSpace keys ++ [')'])) ++ '\n' :: rest := by simp
    rw [hform]
    exact stmtTail_clean _ _ 'e' (by decide) hnbs
  have hnbs2 : ∀ c ∈ ('(' :: (joinSpace keys ++ [')'])), ¬c = '\\' :=
    fun c hc => (hnbs c hc).2
  have hlj : lineJoinSub ('(' :: (joinSpace keys ++ [')'])) =
      '(' :: (joinSpace keys ++ [')']) :=
    lineJoinSub_self _ (noPair_of_no_first _ _ _ hnbs2)
  have h3 : List.dropWhile (fun x => decide ¬x = ')') (joinSpace keys ++ [')']) = [')'] := by
    rw [dropWhile_append_all]
    · rfl
    · intro c hc
      rcases hchars c hc with hw | hsp
      · simp [(wordChar_not c hw).2.2.2.2.1]
      · subst hsp; decide
  have h4 : List.takeWhile (fun x => !decide (x = ')')) (joinSpace keys ++ [')']) = joinSpace keys := by
    rw [takeWhile_append_all]
    · simp
    · intro c hc
      rcases hchars c hc with hw | hsp
      · simp [(wordChar_not c hw).2.2.2.2.1]
      · subst hsp; decide
  rw [hshape, stmtTok]
  have hkw : kwKind ['r','e','q','u','i','r','e'] = .req := rfl
  simp [List.takeWhile_cons, List.dropWhile_cons, hst, isWordChar, parenExtract,
    rstripWs, isWs, hkw, findallIdents_joinSpace keys hgood, stripWs_joinSpace keys hgood,
    hlj, h3, h4, requirePrefix]
  rw [h3]
  simp [findallIdents_joinSpace keys hgood]
  omega

theorem alookup_cons {α : Type} (a : Chars) (b : α) (m : List (Chars × α)) (k : Chars) :
    alookup ((a, b) :: m) k = if a == k then some b else alookup m k := by
  by_cases h : a == k
  · simp [alookup, List.find?_cons_of_pos, h]
  · simp only [alookup, List.find?]
    rw [show ((a, b).1 == k) = false by simpa using h]
    simp [alookup, h]

theorem tokenizeLoop_shift (rules : List Rule) :
    ∀ (fuel n d : Nat) (prev : Char) (s : Chars),
    tokenizeLoop rules fuel (n + d) prev s =
      (tokenizeLoop rules fuel n prev s).map
        (List.map (fun t => ⟨t.line + d, t.kind, t.val⟩)) := by
  intro fuel
  induction fuel with
  | zero => intro n d prev s; rfl
  | succ f ih =>
      intro n d prev s
      rw [tokenizeLoop, tokenizeLoop]
      by_cases hs : s = []
      · rw [if_pos hs, if_pos hs]; rfl
      · rw [if_neg hs, if_neg hs]
        cases firstRule rules prev s with
        | fail => rfl
        | perr e => rfl
        | tok k kind v =>
            dsimp only
            by_cases hk : k = 0
            · rw [if_pos hk, if_pos hk]; rfl
            · rw [if_neg hk, if_neg hk]
              rw [show n + d + (s.take k).count '\n' =
                    n + (s.take k).count '\n' + d by omega]
              rw [ih (n + (s.take k).count '\n') d ((s.take k).getLastD prev) (s.drop k)]
              cases tokenizeLoop rules f (n + (s.take k).count '\n')
                  ((s.take k).getLastD prev) (s.drop k) with
              | ok ts => simp [Except.map]
              | error e => simp [Except.map]

theorem tokenizeLoop_fuel (rules : List Rule) :
    ∀ (fuel n : Nat) (prev : Char) (s : Chars), s.length < fuel →
    tokenizeLoop rules fuel n prev s = tokenizeLoop rules (s.length + 1) n prev s := by
  intro fuel
  induction fuel using Nat.strong_induction_on with
  | _ fuel ih =>
      intro n prev s h
      match fuel, h with
      | f + 1, h =>
          by_cases hs : s = []
          · subst hs
            rw [tokenizeLoop, tokenizeLoop]
            rfl
          · have hpos : 0 < s.length := List.length_pos.mpr hs
            rw [tokenizeLoop, tokenizeLoop]
            rw [if_neg hs, if_neg hs]
            cases firstRule rules prev s with
            | fail => rfl
            | perr e => rfl
            | tok k kind v =>
                dsimp only
                by_cases hk : k = 0
                · rw [if_pos hk, if_pos hk]
                · rw [if_neg hk, if_neg hk]
                  have hdl : (s.drop k).length = s.length - k := List.length_drop k s
                  rw [ih f (by omega) _ _ _ (by omega)]
                  rw [ih s.length (by omega) _ _ _ (by omega)]

theorem crlfNorm_append (a b : Chars) (h : ∀ c ∈ a, ¬c = '\r') :
    crlfNorm (a ++ b) = a ++ crlfNorm b := by
  induction a with
  | nil => rfl
  | cons c a ih =>
      have ha : ∀ x ∈ a, ¬x = '\r' := fun x hx => h x (by simp [hx])
      have hc : ¬c = '\r' := h c (by simp)
      cases hab : a ++ b with
      | nil =>
          have ha0 : a = [] := by
            cases a with
            | nil => rfl
            | cons x xs => simp at hab
          subst ha0
          rw [List.nil_append] at hab
          subst hab
          rfl
      | cons d r =>
          calc crlfNorm ((c :: a) ++ b) = crlfNorm (c :: d :: r) := by
                rw [List.cons_append, hab]
            _ = c :: crlfNorm (d :: r) := by
                rw [crlfNorm, if_neg (fun hh => hc hh.1)]
            _ = c :: crlfNorm (a ++ b) := by rw [hab]
            _ = c :: (a ++ crlfNorm b) := by rw [ih ha]
            _ = (c :: a) ++ crlfNorm b := rfl

theorem tokenize_require_prepend (keys : List Chars) (src : Chars)
    (hgood : ∀ k ∈ keys, goodKey k = true) :
    tokenize (requirePrefix keys ++ src) =
      (tokenize src).map (fun ts => ⟨1, .req, .ks keys⟩ ::
        ts.map (fun t => ⟨t.line + 1, t.kind, t.val⟩)) := by
  have hchars := joinSpace_chars keys hgood
  have hnr : ∀ c ∈ requirePrefix keys, ¬c = '\r' := by
    intro c hc
    rw [requirePrefix] at hc
    rw [show "%require(".toList = ['%','r','e','q','u','i','r','e','('] from rfl,
      show ")\n".toList = [')', '\n'] from rfl] at hc
    rcases List.mem_append.mp hc with h1 | h1
    · rcases List.mem_append.mp h1 with h2 | h2
      · intro hh; subst hh; simp at h2
      · rcases hchars c h2 with hw | hsp
        · exact (wordChar_not c hw).2.2.2.2.2.2.1
        · subst hsp; decide
    · intro hh; subst hh; simp at h1
  have hshape2 : requirePrefix keys =
      (['%','r','e','q','u','i','r','e','('] ++ joinSpace keys ++ [')']) ++ ['\n'] := by
    rw [requirePrefix]
    rw [show "%require(".toList = ['%','r','e','q','u','i','r','e','('] from rfl,
      show ")\n".toList = [')', '\n'] from rfl]
    simp
  have hcount : (requirePrefix keys).count '\n' = 1 := by
    rw [hshape2]
    rw [List.count_append, List.count_append, List.count_append]
    rw [show List.count '\n' ['%','r','e','q','u','i','r','e','('] = 0 from rfl,
      show List.count '\n' [')'] = 0 from rfl, show List.count '\n' ['\n'] = 1 from rfl]
    rw [List.count_eq_zero.mpr (fun hmem => by
      rcases hchars '\n' hmem with hw | hsp
      · exact absurd hw (by decide)
      · exact absurd hsp (by decide))]
  have hlast : (requirePrefix keys).getLastD '\n' = '\n' := by
    rw [hshape2, List.getLastD_concat]
  have hlen : 11 ≤ (requirePrefix keys).length := by
    rw [hshape2]
    simp
  have hne : requirePrefix keys ++ crlfNorm src ≠ [] := by
    intro hemp
    have h2 := congrArg List.length hemp
    rw [List.length_append] at h2
    simp only [List.length_nil] at h2
    omega
  rw [tokenize, tokenize]
  rw [crlfNorm_append _ _ hnr]
  rw [show (requirePrefix keys ++ crlfNorm src).length + 1 =
        ((requirePrefix keys ++ crlfNorm src).length) + 1 from rfl]
  rw [tokenizeLoop]
  rw [if_neg hne]
  rw [show firstRule parserRules '\n' (requirePrefix keys ++ crlfNorm src) =
        .tok (requirePrefix keys).length .req (.ks keys) by
    simp [parserRules, firstRule, stmtTok_require keys (crlfNorm src) hgood]]
  dsimp only
  rw [if_neg (by omega)]
  rw [List.take_left, List.drop_left]
  rw [hcount, hlast]
  rw [tokenizeLoop_fuel parserRules ((requirePrefix keys ++ crlfNorm src).length)
    (1 + 1) '\n' (crlfNorm src) (by rw [List.length_append]; omega)]
  rw [tokenizeLoop_shift parserRules ((crlfNorm src).length + 1) 1 1 '\n' (crlfNorm src)]
  cases tokenizeLoop parserRules ((crlfNorm src).length + 1) 1 '\n' (crlfNorm src) with
  | ok ts => simp [Except.map]
  | error e => simp [Except.map]

theorem alookup_isSome_of_mem_keys (ctx : Ctx) (k : Chars)
    (hk : k ∈ ctx.map (·.1)) : (alookup ctx k).isSome := by
  rcases List.mem_map.mp hk with ⟨p, hp, hpk⟩
  have h2 : (ctx.find? (fun q => q.1 == k)).isSome :=
    List.find?_isSome.mpr ⟨p, hp, by simp [hpk]⟩
  rw [alookup]
  cases hfind : ctx.find? (fun q => q.1 == k) with
  | none => rw [hfind] at h2; simp at h2
  | some q => simp

theorem bindRequire_binds (ctx : Ctx) (keys : List Chars) :
    ∀ (env : Env), (∀ k ∈ keys, (alookup ctx k).isSome) →
    ∃ env', bindRequireAux ctx [] env keys = .ok env' ∧
      (∀ k ∈ keys, alookup env' k = alookup ctx k) ∧
      (∀ k, k ∉ keys → alookup env' k = alookup env k) := by
  induction keys with
  | nil =>
      intro env _
      exact ⟨env, rfl, by simp, fun k _ => rfl⟩
  | cons k0 ks ih =>
      intro env hcov
      obtain ⟨v, hv⟩ := Option.isSome_iff_exists.mp (hcov k0 (by simp))
      obtain ⟨env', he, hin, hout⟩ :=
        ih ((k0, v) :: env) (fun k hk => hcov k (by simp [hk]))
      refine ⟨env', ?_, ?_, ?_⟩
      · rw [bindRequireAux, if_neg (by simp), hv]
        exact he
      · intro k hk
        rcases List.mem_cons.mp hk with rfl | hk2
        · by_cases hk0 : k ∈ ks
          · exact hin k hk0
          · rw [hout k hk0, alookup_cons, if_pos (by simp)]
            exact hv.symm
        · exact hin k hk2
      · intro k hk
        have hk0 : ¬k = k0 := fun h2 => hk (by simp [h2])
        have hks : k ∉ ks := fun h2 => hk (by simp [h2])
        rw [hout k hks, alookup_cons,
          if_neg (by simp; exact fun h2 => hk0 h2.symm)]

/-- C10.  The module-level entry points prepend a `%require` line for
the context keys of an inline source, which binds each key from the
context before the body runs; a plain name is looked up unmodified.
(1) `get_template(source=src, require=keys)` with a non-empty require
list compiles `"%require(k1 k2 ...)\n" + src`; (2) lexing that prepended
source yields the `require` token for exactly those keys followed by the
tokens of `src` shifted one line down; (3) executing the resulting
`require` node binds every listed key to its context value before the
remaining body executes; (4) `get_template(name)` for a plain name — no
newline, no `\x7b\x7b` — delegates to `Engine.get_template` with the
name unmodified. -/
theorem c10_require_prepend
    (eng : Eng) (src nm : Chars) (ctx : Ctx)
    (st : RSt) (dflt : List Chars) (env : Env) (buf : Chars) (body : List Node)
    (l f : Nat)
    (hctx : ctx ≠ [])
    (hgood : ∀ k ∈ ctx.map (·.1), goodKey k = true)
    (hnm1 : nm.contains '\n' = false) (hnm2 : hasPair '{' '{' nm = false) :
    getTemplateTop eng none (some src) (ctx.map (·.1)) =
      getTemplateSrc eng none (requirePrefix (ctx.map (·.1)) ++ src) ∧
    tokenize (requirePrefix (ctx.map (·.1)) ++ src) =
      (tokenize src).map (fun ts => ⟨1, .req, .ks (ctx.map (·.1))⟩ ::
        ts.map (fun t => ⟨t.line + 1, t.kind, t.val⟩)) ∧
    (∃ env', execNodes (f + 1) st ctx dflt env [] buf
          (⟨l, .req, .ks (ctx.map (·.1))⟩ :: body) =
        execNodes f st ctx dflt env' (ctx.map (·.1)) buf body ∧
      ∀ k ∈ ctx.map (·.1), alookup env' k = alookup ctx k) ∧
    getTemplateTop eng (some nm) none (ctx.map (·.1)) = engGetTemplate eng nm := by
  have hcov : ∀ k ∈ ctx.map (·.1), (alookup ctx k).isSome :=
    fun k hk => alookup_isSome_of_mem_keys ctx k hk
  have hkeys : ctx.map (·.1) ≠ [] := by
    cases ctx with
    | nil => exact absurd rfl hctx
    | cons p ps => simp
  refine ⟨?_, tokenize_require_prepend _ _ hgood, ?_, ?_⟩
  · simp [getTemplateTop, withReq, hkeys]
  · obtain ⟨env', he, hin, _⟩ := bindRequire_binds ctx (ctx.map (·.1)) env hcov
    exact ⟨env', by simp [execNodes, bindRequire, he, Except.map], hin⟩
  · have hnm1' : ¬('\n' ∈ nm) := by simpa using hnm1
    simp [getTemplateTop, hnm1', hnm2]

/-- Concrete instance of the C10 theorem at a one-key context. -/
theorem c10_require_prepend_witness :
    (getTemplateTop c10eng none (some ['X']) (c10ctx.map (·.1)) =
      getTemplateSrc c10eng none (requirePrefix (c10ctx.map (·.1)) ++ ['X']) ∧
    tokenize (requirePrefix (c10ctx.map (·.1)) ++ ['X']) =
      (tokenize ['X']).map (fun ts => ⟨1, .req, .ks (c10ctx.map (·.1))⟩ ::
        ts.map (fun t => ⟨t.line + 1, t.kind, t.val⟩)) ∧
    (∃ env', execNodes 1 ⟨c10eng, [], []⟩ c10ctx [] [] [] []
          [⟨1, .req, .ks (c10ctx.map (·.1))⟩] =
        execNodes 0 ⟨c10eng, [], []⟩ c10ctx [] env' (c10ctx.map (·.1)) [] [] ∧
      ∀ k ∈ c10ctx.map (·.1), alookup env' k = alookup c10ctx k) ∧
    getTemplateTop c10eng (some ['b']) none (c10ctx.map (·.1)) =
      engGetTemplate c10eng ['b']) :=
  c10_require_prepend c10eng ['X'] ['b'] c10ctx ⟨c10eng, [], []⟩ [] [] [] [] 1 0
    (by simp [c10ctx]) (by decide) (by decide) (by decide)


/-- A word character is not a quote character. -/
theorem wordChar_not_quote (c : Char) (h : isWordChar c = true) :
    ¬c = '"' ∧ ¬c = '\'' := by
  refine ⟨?_, ?_⟩
  all_goals intro h1
  all_goals subst h1
  all_goals exact absurd h (by decide)

theorem dropWhile_eq_self_of_all {p : Char → Bool} (s : Chars)
    (h : ∀ c ∈ s, p c = false) : s.dropWhile p = s := by
  cases s with
  | nil => rfl
  | cons c r => rw [List.dropWhile_cons, if_neg (by simp [h c (by simp)])]

theorem stripWs_no_ws (s : Chars) (h : ∀ c ∈ s, isWs c = false) :
    stripWs s = s := by
  rw [stripWs, rstripWs, dropWhile_eq_self_of_all s h,
    dropWhile_eq_self_of_all s.reverse (fun c hc => h c (List.mem_reverse.mp hc)),
    List.reverse_reverse]

/-- `stmt[4:stmt.index('(', 5)]` on the canonical `def` header recovers the
def's name. -/
theorem defNameOf_header (nm : Chars) (hnm : nm ≠ [])
    (hw : ∀ c ∈ nm, isWordChar c = true) :
    defNameOf ("def ".toList ++ nm ++ "():".toList) = some nm := by
  cases nm with
  | nil => exact absurd rfl hnm
  | cons c nmr =>
      have hassoc : "def ".toList ++ (c :: nmr) ++ "():".toList =
          'd' :: 'e' :: 'f' :: ' ' :: (c :: (nmr ++ ['(', ')', ':'])) := by
        rw [show "def ".toList = ['d', 'e', 'f', ' '] from rfl,
          show "():".toList = ['(', ')', ':'] from rfl]
        simp
      rw [hassoc, defNameOf]
      have hd : (nmr ++ ['(', ')', ':']).dropWhile (fun x => decide ¬x = '(') =
          ['(', ')', ':'] := by
        rw [dropWhile_append_all _ _ (fun x hx => by
          simp [(wordChar_not x (hw x (by simp [hx]))).2.2.2.2.2.1])]
        rfl
      have ht : (nmr ++ ['(', ')', ':']).takeWhile (fun x => !decide (x = '(')) = nmr := by
        rw [takeWhile_append_all _ _ (fun x hx => by
          simp [(wordChar_not x (hw x (by simp [hx]))).2.2.2.2.2.1])]
        simp
      simp [hd, ht]

/-- A `%extends("pname")` header evaluates to the parent's name when the
name holds no embedded quote. -/
theorem strLit_quoted (pname : Chars) (h : pname.contains '"' = false) :
    strLit '"' (pname ++ ['"']) = .ok (.vstr pname) := by
  rw [strLit, List.getLast?_concat]
  dsimp only
  rw [List.dropLast_concat]
  rw [if_pos ⟨rfl, h⟩]

/-- Invoking the closure of a one-markup-line `%def` returns its body. -/
theorem callClosure_defChildren (u : Nat) (st : RSt) (ctx : Ctx) (cenv : Env)
    (cdflt : List Chars) (l : Nat) (body : Chars) :
    callClosure (u + 4) st ctx (defChildren l body) cenv cdflt = (st, .ok body) := by
  simp [callClosure, defChildren, isCompoundTok, execNodes, execOut, Except.map, Node.kind]

/-- The generated `nm()` call on a frame binding `nm` to a one-line def
closure returns the def's body as a string. -/
theorem evalExpr_defCall (w : Nat) (st : RSt) (ctx : Ctx) (env0 : Env) (nm : Chars)
    (hnm : nm ≠ []) (hw : ∀ c ∈ nm, isWordChar c = true)
    (l : Nat) (body : Chars) (cenv : Env) (cdflt : List Chars) :
    evalExpr (w + 5) st ctx ((nm, Val.vfun (defChildren l body) cenv cdflt) :: env0)
      (nm ++ "()".toList) = (st, .ok (.vstr body)) := by
  cases nm with
  | nil => exact absurd rfl hnm
  | cons c nmr =>
      have hcw := hw c (by simp)
      have hq := wordChar_not_quote c hcw
      have he : (c :: nmr) ++ "()".toList = c :: (nmr ++ ['(', ')']) := by
        rw [show "()".toList = ['(', ')'] from rfl]
        simp
      rw [he]
      have htk : (c :: (nmr ++ ['(', ')'])).takeWhile isWordChar = c :: nmr := by
        rw [show c :: (nmr ++ ['(', ')']) = (c :: nmr) ++ ['(', ')'] from rfl]
        rw [takeWhile_append_all _ _ (fun x hx => hw x hx)]
        simp [isWordChar]
      have hdr : (c :: (nmr ++ ['(', ')'])).drop (c :: nmr).length = ['(', ')'] := by
        rw [show c :: (nmr ++ ['(', ')']) = (c :: nmr) ++ ['(', ')'] from rfl]
        exact List.drop_left (c :: nmr) ['(', ')']
      rw [evalExpr]
      split
      · rename_i hnil
        rw [htk] at hnil
        simp at hnil
      · rw [htk, hdr]
        simp [alookup_cons, callClosure_defChildren w st ctx cenv cdflt l body, Except.map]
      · intro r hr
        injection hr with h1 h2
        exact hq.1 h1
      · intro r hr
        injection hr with h1 h2
        exact hq.2 h1

/-- The filter analysis of the generated `{{nm()}}` expression: no pipe, no
surrounding whitespace, so the expression is the call and the filters are
exactly the defaults. -/
theorem varFilterChain_call (nm : Chars) (ds : List Chars)
    (hw : ∀ c ∈ nm, isWordChar c = true) :
    varFilterChain (nm ++ "()".toList) ds = (nm ++ "()".toList, ds) := by
  have hpipe : '|' ∉ nm ++ "()".toList := by
    intro hmem
    rcases List.mem_append.mp hmem with h1 | h1
    · exact (wordChar_not '|' (hw '|' h1)).2.2.2.2.2.2.2 rfl
    · rw [show "()".toList = ['(', ')'] from rfl] at h1
      simp at h1
  have hws : ∀ c ∈ nm ++ "()".toList, isWs c = false := by
    intro c hc
    rcases List.mem_append.mp hc with h1 | h1
    · exact (wordChar_not c (hw c h1)).1
    · rw [show "()".toList = ['(', ')'] from rfl] at h1
      simp at h1
      rcases h1 with rfl | rfl <;> rfl
  rw [varFilterChain, splitPipe_no_pipe _ hpipe]
  rw [List.map_singleton, stripWs_no_ws _ hws]
  dsimp only
  rw [if_neg (by simp)]
  rw [List.nil_append]

/-- C1.  Extends/def override, over the one-block template family: a child
`%extends("pname")` that defines `nm` with body `bodyC` (i) runs only the
extends body's `def` nodes — populating `local_defs` and `super_defs` with
the child's closure for `nm` — and then delegates to `Engine.render` of
the parent name with the same context; (ii) rendering the parent — whose
own `%def nm():` has body `bodyP` and which invokes the block between
markup `pre` and `post` — emits the CHILD's body at the call site,
producing `pre ++ bodyC ++ post`, with the parent's own `bodyP` appearing
nowhere in the output; (iii) end to end, rendering the child template
produces `pre ++ bodyC ++ post`. -/
theorem c1_extends_def_override
    (eng : Eng) (pname nm pre bodyP post bodyC : Chars) (ctx : Ctx)
    (dflt : List Chars) (f : Nat)
    (hnm : nm ≠ []) (hw : ∀ c ∈ nm, isWordChar c = true)
    (hpq : pname.contains '"' = false)
    (hpar : alookup eng.renders pname =
      some ⟨parentNodes nm pre bodyP post, ["str".toList]⟩) :
    execRender (f + 3) ⟨eng, [], []⟩ ctx dflt (childNodes pname nm bodyC) =
      engRender (f + 2)
        ⟨eng, [(nm, defClosure 2 bodyC [] dflt)], [(nm, defClosure 2 bodyC [] dflt)]⟩
        ctx pname ∧
    (engRender (f + 11)
        ⟨eng, [(nm, defClosure 2 bodyC [] dflt)], [(nm, defClosure 2 bodyC [] dflt)]⟩
        ctx pname).2 = .ok (pre ++ bodyC ++ post) ∧
    (execRender (f + 12) ⟨eng, [], []⟩ ctx dflt (childNodes pname nm bodyC)).2 =
      .ok (pre ++ bodyC ++ post) := by
  have hdef := defNameOf_header nm hnm hw
  have hdef2 : defNameOf ('d' :: 'e' :: 'f' :: ' ' :: (nm ++ ['(', ')', ':'])) = some nm := by
    rw [show ('d' :: 'e' :: 'f' :: ' ' :: (nm ++ ['(', ')', ':'])) =
      "def ".toList ++ nm ++ "():".toList from by simp]
    exact hdef
  have hsl := strLit_quoted pname hpq
  have h1 : ∀ (g : Nat),
      execRender (g + 3) ⟨eng, [], []⟩ ctx dflt (childNodes pname nm bodyC) =
        engRender (g + 2)
          ⟨eng, [(nm, defClosure 2 bodyC [] dflt)], [(nm, defClosure 2 bodyC [] dflt)]⟩
          ctx pname := by
    intro g
    simp [execRender, childNodes, defNode, defChildren, execNodes, evalExpr, hdef2, hsl,
      isCompoundTok, Node.kind, alookup, defClosure, List.filter, Except.map]
  have h2 : ∀ (g : Nat),
      (engRender (g + 11)
        ⟨eng, [(nm, defClosure 2 bodyC [] dflt)], [(nm, defClosure 2 bodyC [] dflt)]⟩
        ctx pname).2 = .ok (pre ++ bodyC ++ post) := by
    intro g
    have hvfc : varFilterChain (nm ++ ['(', ')']) [['s', 't', 'r']] =
        (nm ++ ['(', ')'], [['s', 't', 'r']]) := by
      simpa using varFilterChain_call nm [['s', 't', 'r']] hw
    have hev : ∀ (s : RSt),
        evalExpr (g + 5) s ctx [(nm, Val.vfun (defChildren 2 bodyC) [] dflt)]
          (nm ++ ['(', ')']) = (s, .ok (.vstr bodyC)) := fun s => by
      simpa using evalExpr_defCall g s ctx [] nm hnm hw 2 bodyC [] dflt
    have happ : applyFilters [['s', 't', 'r']] (Val.vstr bodyC) = .ok (.vstr bodyC) := rfl
    have hhd : (defChildren 2 bodyP).head? =
        some (.mk 3 .outk (.out [⟨3, .markup, .s bodyP⟩])) := rfl
    have hOut1 : execOut (g + 8)
        ⟨eng, [(nm, Val.vfun (defChildren 2 bodyC) [] dflt)],
          [(nm, Val.vfun (defChildren 2 bodyC) [] dflt)]⟩ ctx [['s', 't', 'r']] [] []
        [⟨1, .markup, .s pre⟩] =
        (⟨eng, [(nm, Val.vfun (defChildren 2 bodyC) [] dflt)],
          [(nm, Val.vfun (defChildren 2 bodyC) [] dflt)]⟩, .ok pre) := by
      simp [execOut]
    have hVar : execOut (g + 6)
        ⟨eng, [(nm, Val.vfun (defChildren 2 bodyC) [] dflt)],
          [(nm, Val.vfun (defChildren 2 bodyP) [] [['s', 't', 'r']]),
           (nm, Val.vfun (defChildren 2 bodyC) [] dflt)]⟩ ctx [['s', 't', 'r']]
        [(nm, Val.vfun (defChildren 2 bodyC) [] dflt)] pre
        [⟨5, .var, .s (nm ++ ['(', ')'])⟩, ⟨5, .markup, .s post⟩] =
        (⟨eng, [(nm, Val.vfun (defChildren 2 bodyC) [] dflt)],
          [(nm, Val.vfun (defChildren 2 bodyP) [] [['s', 't', 'r']]),
           (nm, Val.vfun (defChildren 2 bodyC) [] dflt)]⟩, .ok (pre ++ bodyC ++ post)) := by
      simp [execOut, hvfc, hev, happ, Except.map]
    have hN : execNodes (g + 9)
        ⟨eng, [(nm, Val.vfun (defChildren 2 bodyC) [] dflt)],
          [(nm, Val.vfun (defChildren 2 bodyC) [] dflt)]⟩ ctx [['s', 't', 'r']] [] [] []
        [Node.mk 1 .outk (.out [⟨1, .markup, .s pre⟩]),
         Node.mk 2 .defk (.blk ('d' :: 'e' :: 'f' :: ' ' :: (nm ++ ['(', ')', ':']))
           (defChildren 2 bodyP)),
         Node.mk 5 .outk (.out [⟨5, .var, .s (nm ++ ['(', ')'])⟩, ⟨5, .markup, .s post⟩])] =
        (⟨eng, [(nm, Val.vfun (defChildren 2 bodyC) [] dflt)],
          [(nm, Val.vfun (defChildren 2 bodyP) [] [['s', 't', 'r']]),
           (nm, Val.vfun (defChildren 2 bodyC) [] dflt)]⟩,
         .ok (pre ++ bodyC ++ post, [(nm, Val.vfun (defChildren 2 bodyC) [] dflt)], [])) := by
      simp [execNodes, hdef2, isCompoundTok, Node.kind, alookup_cons, hhd]
      rw [hOut1]
      simp [alookup_cons]
      rw [hVar]
      simp
    have hR : execRender (g + 10)
        ⟨eng, [(nm, Val.vfun (defChildren 2 bodyC) [] dflt)],
          [(nm, Val.vfun (defChildren 2 bodyC) [] dflt)]⟩ ctx [['s', 't', 'r']]
        (parentNodes nm pre bodyP post) =
        (⟨eng, [(nm, Val.vfun (defChildren 2 bodyC) [] dflt)],
          [(nm, Val.vfun (defChildren 2 bodyP) [] [['s', 't', 'r']]),
           (nm, Val.vfun (defChildren 2 bodyC) [] dflt)]⟩, .ok (pre ++ bodyC ++ post)) := by
      simp [execRender, parentNodes, defNode, Node.kind, List.getLast?]
      rw [hN]
      simp [Except.map]
    simp only [engRender, defClosure]
    rw [hpar]
    dsimp only
    rw [show (["str".toList] : List Chars) = [['s', 't', 'r']] from rfl]
    rw [hR]
  refine ⟨h1 f, h2 f, ?_⟩
  calc (execRender (f + 12) ⟨eng, [], []⟩ ctx dflt (childNodes pname nm bodyC)).2
      = (execRender ((f + 9) + 3) ⟨eng, [], []⟩ ctx dflt (childNodes pname nm bodyC)).2 := by
        rw [show f + 12 = f + 9 + 3 from by omega]
    _ = (engRender ((f + 9) + 2)
          ⟨eng, [(nm, defClosure 2 bodyC [] dflt)], [(nm, defClosure 2 bodyC [] dflt)]⟩
          ctx pname).2 := by rw [h1 (f + 9)]
    _ = .ok (pre ++ bodyC ++ post) := by
        rw [show f + 9 + 2 = f + 11 from by omega]
        exact h2 f

/-- Concrete instance of the override theorem: parent `"p"` defines block
`bk` with body `"P"` between markup `"A"` and `"B"`; the child's body
`"C"` is what renders, giving `"ACB"`. -/
theorem c1_extends_def_override_witness :
    execRender 3 ⟨c1eng, [], []⟩ [] ["str".toList] (childNodes ['p'] ['b', 'k'] "C".toList) =
      engRender 2 ⟨c1eng, [(['b', 'k'], defClosure 2 "C".toList [] ["str".toList])],
        [(['b', 'k'], defClosure 2 "C".toList [] ["str".toList])]⟩ [] ['p'] ∧
    (engRender 11 ⟨c1eng, [(['b', 'k'], defClosure 2 "C".toList [] ["str".toList])],
        [(['b', 'k'], defClosure 2 "C".toList [] ["str".toList])]⟩ [] ['p']).2 =
      .ok ("A".toList ++ "C".toList ++ "B".toList) ∧
    (execRender 12 ⟨c1eng, [], []⟩ [] ["str".toList]
        (childNodes ['p'] ['b', 'k'] "C".toList)).2 =
      .ok ("A".toList ++ "C".toList ++ "B".toList) :=
  c1_extends_def_override c1eng ['p'] ['b', 'k'] "A".toList "P".toList "B".toList "C".toList
    [] ["str".toList] 0 (by decide) (by decide) (by decide) (by rfl)


end Chatu
